import Mathlib

/-!
Verification of the grid-packing engine in `src/utils/grid.ts`.

The TypeScript module is embedded shallowly: grid coordinates are `Int`,
pixel quantities are `Rat`, the occupancy matrix is `List (List Bool)`,
and functions that can throw in JavaScript return `Except JsErr`.
JavaScript array indexing semantics are modelled explicitly:
reading `arr[y]` for `y < 0` or `y ≥ arr.length` yields `undefined`, so a
subsequent member access on it throws a TypeError; reading `row[x]` for an
out-of-range nonnegative `x` yields `undefined`, which is falsy in a
condition; writing `row[x] = v` for negative `x` creates an own (non-index)
property of the row object, which a later read of the same `row[x]` does
observe even though it is invisible to index-based reads. The occupancy
builder therefore carries, besides the boolean matrix, the list of
negative-`x` property cells created so far, and drops it only at the return
boundary (where only index-based reads of the result occur).
-/

/-- The two runtime error kinds the module can produce: the explicit
`new Error('elements in layout have overlay')` throw, and the implicit
TypeError from indexing into `undefined`. -/
inductive JsErr : Type where
  | typeError : JsErr
  | overlapError : JsErr
deriving DecidableEq

structure GridDimensions where
  boxSize : ℚ
  columns : ℕ
  rows : ℕ
  minColumns : ℕ
  minRows : ℕ
deriving DecidableEq

structure Position where
  x : ℤ
  y : ℤ
deriving DecidableEq

structure PixelPosition where
  x : ℚ
  y : ℚ
deriving DecidableEq

structure LayoutItemSize where
  width : ℤ
  height : ℤ
deriving DecidableEq

/-- `LayoutItem<T> = Position & LayoutItemSize & T`; the intersection type is
flattened into one structure with a `data` field for the caller payload. -/
structure LayoutItem (T : Type) where
  x : ℤ
  y : ℤ
  width : ℤ
  height : ℤ
  data : T
deriving DecidableEq

abbrev Layout (T : Type) := List (LayoutItem T)

abbrev Grid2DArray := List (List Bool)

/-- `layoutItemToSectors`: the two nested `for` loops push `{x: i, y: j}` for
`i` from `item.x` (exclusive bound `item.x + item.width`, outer loop) and `j`
from `item.y` (exclusive bound `item.y + item.height`, inner loop). An empty
range (non-positive width or height) produces no sectors, as in JS. -/
def layoutItemToSectors {T : Type} (item : LayoutItem T) : List Position :=
  (List.range item.width.toNat).flatMap (fun (di : ℕ) =>
    (List.range item.height.toNat).map (fun (dj : ℕ) =>
      Position.mk (item.x + (di : ℤ)) (item.y + (dj : ℤ))))

/-- The freshly initialised `rows × columns` matrix of `false`. -/
def emptyGrid (grid : GridDimensions) : Grid2DArray :=
  List.replicate grid.rows (List.replicate grid.columns false)

/-- One iteration of the `itemSectors.forEach` body of `layoutTo2DArray`:
`if (s.x >= grid.columns || s.y >= grid.rows) return;`, then
`if (arr[s.y][s.x] && !allowOverlay) throw ...; arr[s.y][s.x] = true;`.
The state is the boolean matrix together with the list of negative-`x`
property cells already created on its row objects. For `s.y < 0`, `arr[s.y]`
is `undefined` and indexing it throws a TypeError. For `s.x < 0` (with `s.y`
in range), `arr[s.y][s.x]` reads the own property `s.x` of the row object
(`undefined`, falsy, when absent) -- so a repeated negative-`x` cell does
throw the overlap error when overlay is disallowed -- and the assignment
creates or rewrites that property, leaving the index entries untouched. -/
def markSector (grid : GridDimensions) (allowOverlay : Bool)
    (st : Grid2DArray × List Position) (s : Position) :
    Except JsErr (Grid2DArray × List Position) :=
  if (grid.columns : ℤ) ≤ s.x ∨ (grid.rows : ℤ) ≤ s.y then .ok st
  else if s.y < 0 then .error .typeError
  else if s.x < 0 then
    if decide (s ∈ st.2) && !allowOverlay then .error .overlapError
    else .ok (st.1, st.2.insert s)
  else if (st.1.getD s.y.toNat []).getD s.x.toNat false && !allowOverlay then
    .error .overlapError
  else .ok (st.1.set s.y.toNat ((st.1.getD s.y.toNat []).set s.x.toNat true), st.2)

/-- The full build state of `layoutTo2DArray`: the empty matrix with no row
properties, then for each item in layout order all its sectors are marked; a
throw anywhere aborts the whole construction. -/
def layoutTo2DArrayFull {T : Type} (grid : GridDimensions) (layout : Layout T)
    (allowOverlay : Bool) : Except JsErr (Grid2DArray × List Position) :=
  layout.foldlM
    (fun st it => (layoutItemToSectors it).foldlM (markSector grid allowOverlay) st)
    (emptyGrid grid, [])

/-- `layoutTo2DArray` returns the built array object. Its value as a boolean
matrix is the index part of the state; the negative-`x` row properties are
not index entries, and every consumer modelled here reads matrices built by
this function at nonnegative column indices only (the scan origins and the
footprints tested by `findPositionForItemInGrid` have `x = j ≥ 0`), so the
matrix alone determines the modelled behaviour and the property list is
dropped at the return boundary. -/
def layoutTo2DArray {T : Type} (grid : GridDimensions) (layout : Layout T)
    (allowOverlay : Bool) : Except JsErr Grid2DArray :=
  (layoutTo2DArrayFull grid layout allowOverlay).map Prod.fst

/-- The loop of `willItemOverlay` over the candidate's sectors:
`if (arr.length <= sector.y || arr[sector.y].length <= sector.x) continue;`
(the second disjunct throws a TypeError when `sector.y < 0`, since `arr[sector.y]`
is `undefined`), then `if (arr[sector.y][sector.x]) return true;` (a negative
`sector.x` reads `undefined`, which is falsy). -/
def overlayGo (arr : Grid2DArray) : List Position → Except JsErr Bool
  | [] => .ok false
  | s :: rest =>
    if (arr.length : ℤ) ≤ s.y then overlayGo arr rest
    else if s.y < 0 then .error .typeError
    else if (((arr.getD s.y.toNat []).length : ℤ)) ≤ s.x then overlayGo arr rest
    else if s.x < 0 then overlayGo arr rest
    else if (arr.getD s.y.toNat []).getD s.x.toNat false then .ok true
    else overlayGo arr rest

/-- `willItemOverlay({arr, item})`. -/
def willItemOverlay {T : Type} (arr : Grid2DArray) (item : LayoutItem T) :
    Except JsErr Bool :=
  overlayGo arr (layoutItemToSectors item)

/-- The `j` loop of `findPositionForItemInGrid` over one row, starting at
column index `j`: skip occupied origin cells, otherwise test
`willItemOverlay` and the overflow condition, and return the first accepted
origin. -/
def scanRowGo (grid : GridDimensions) (arr : Grid2DArray)
    (item : LayoutItemSize) (i : ℕ) : ℕ → List Bool → Except JsErr (Option Position)
  | _, [] => .ok none
  | j, cell :: rest =>
    if cell then scanRowGo grid arr item i (j + 1) rest
    else
      match willItemOverlay arr (LayoutItem.mk (T := Unit) (j : ℤ) (i : ℤ) item.width item.height ()) with
      | .error e => .error e
      | .ok overlay =>
        if overlay || (decide ((grid.columns : ℤ) < (j : ℤ) + item.width) ||
            decide ((grid.rows : ℤ) < (i : ℤ) + item.height)) then
          scanRowGo grid arr item i (j + 1) rest
        else .ok (some (Position.mk (j : ℤ) (i : ℤ)))

/-- The `i` loop of `findPositionForItemInGrid` over the rows of `arr`,
starting at row index `i`. -/
def scanRowsGo (grid : GridDimensions) (arr : Grid2DArray)
    (item : LayoutItemSize) : ℕ → List (List Bool) → Except JsErr (Option Position)
  | _, [] => .ok none
  | i, row :: rest =>
    match scanRowGo grid arr item i 0 row with
    | .error e => .error e
    | .ok (some p) => .ok (some p)
    | .ok none => scanRowsGo grid arr item (i + 1) rest

/-- `findPositionForItemInGrid`: builds the occupancy matrix (overlap not
allowed), then scans origins row-major; `false` (not found) is `none`. -/
def findPositionForItemInGrid {T : Type} (grid : GridDimensions) (layout : Layout T)
    (item : LayoutItemSize) : Except JsErr (Option Position) :=
  match layoutTo2DArray grid layout false with
  | .error e => .error e
  | .ok arr => scanRowsGo grid arr item 0 arr

structure SnapPoint where
  pixelPosition : PixelPosition
  position : Position
deriving DecidableEq

/-- The square of `distanceBetweenPoints` (`Math.hypot`, the Euclidean
distance). The source only ever uses distances through their ordering, and
`Real.sqrt` is monotone, so comparing squared distances is the faithful
executable image of the comparator. -/
def distanceSq (p1 p2 : PixelPosition) : ℚ :=
  (p2.x - p1.x) * (p2.x - p1.x) + (p2.y - p1.y) * (p2.y - p1.y)

/-- The `possibleSnapPoints` enumeration of `snapToSector`: rows outer,
columns inner, one candidate per grid-cell origin. -/
def snapPointsOf (grid : GridDimensions) : List SnapPoint :=
  (List.range grid.rows).flatMap (fun (row : ℕ) =>
    (List.range grid.columns).map (fun (column : ℕ) =>
      SnapPoint.mk
        (PixelPosition.mk ((column : ℚ) * grid.boxSize) ((row : ℚ) * grid.boxSize))
        (Position.mk (column : ℤ) (row : ℤ))))

/-- `snapToSector`: sorts the candidates by distance to the query position.
`Array.prototype.sort` is stable (ES2019), and a stable sort by a total
preorder has a unique result, so insertion sort is a faithful model. -/
def snapToSector (grid : GridDimensions) (position : PixelPosition) : List SnapPoint :=
  List.insertionSort
    (fun a b => distanceSq a.pixelPosition position ≤ distanceSq b.pixelPosition position)
    (snapPointsOf grid)

/-- The overflow test of `fixHorizontalOverflows`:
`(item.x + item.width > grid.columns) || (item.y + item.height > grid.rows)`. -/
def overflows {T : Type} (grid : GridDimensions) (it : LayoutItem T) : Bool :=
  decide ((grid.columns : ℤ) < it.x + it.width) ||
    decide ((grid.rows : ℤ) < it.y + it.height)

/-- `{...item, ...position}`: same size and payload, replaced coordinates. -/
def relocate {T : Type} (it : LayoutItem T) (p : Position) : LayoutItem T :=
  LayoutItem.mk p.x p.y it.width it.height it.data

def itemSizeOf {T : Type} (it : LayoutItem T) : LayoutItemSize :=
  LayoutItemSize.mk it.width it.height

/-- The loop of `fixHorizontalOverflows`. JavaScript removes items by object
identity (`newLayout.filter(i => i !== item)`); identity is modelled by
tagging each original item with its index (`some k`) and each pushed copy --
a fresh object, never identical to an original -- with `none`. The loop
iterates the tagged originals while `work` is the current `newLayout`. -/
def fixGo {T : Type} (grid : GridDimensions) :
    List (Option ℕ × LayoutItem T) → List (ℕ × LayoutItem T) →
      Except JsErr (List (Option ℕ × LayoutItem T))
  | work, [] => .ok work
  | work, (k, it) :: rest =>
    if overflows grid it = false then fixGo grid work rest
    else
      let work1 := work.filter (fun p => decide (p.1 ≠ some k))
      match findPositionForItemInGrid grid (work1.map Prod.snd) (itemSizeOf it) with
      | .error e => .error e
      | .ok none => fixGo grid work1 rest
      | .ok (some pos) => fixGo grid (work1 ++ [(none, relocate it pos)]) rest

def tagItems {T : Type} (layout : Layout T) : List (Option ℕ × LayoutItem T) :=
  layout.enum.map (fun p => (some p.1, p.2))

/-- `fixHorizontalOverflows`: start from a copy of the layout, repair each
overflowing item in original order, and return the untagged result. -/
def fixHorizontalOverflows {T : Type} (grid : GridDimensions) (layout : Layout T) :
    Except JsErr (Layout T) :=
  (fixGo grid (tagItems layout) layout.enum).map (fun l => l.map Prod.snd)

/-- Modelled from the spec (section 4.6, Overflow Repair), for the refinement
claim about `fixHorizontalOverflows`: the working copy is kept as
`kept ++ todo ++ copies` (non-overflowing processed items, unprocessed items,
relocated copies); an overflowing item is removed from the working copy,
Placement Search runs against the current working copy, and a found slot
reinserts a copy with the new coordinates but the same size and payload at
the end of the working sequence, while a failed search drops the item. -/
def repairOverflowGo {T : Type} (grid : GridDimensions) :
    List (LayoutItem T) → List (LayoutItem T) → List (LayoutItem T) →
      Except JsErr (Layout T)
  | kept, [], copies => .ok (kept ++ copies)
  | kept, it :: todo, copies =>
    if overflows grid it = false then repairOverflowGo grid (kept ++ [it]) todo copies
    else
      match findPositionForItemInGrid grid (kept ++ todo ++ copies) (itemSizeOf it) with
      | .error e => .error e
      | .ok none => repairOverflowGo grid kept todo copies
      | .ok (some pos) => repairOverflowGo grid kept todo (copies ++ [relocate it pos])

/-- Modelled from the spec: `repairOverflow(grid, layout)` (section 4.6). -/
def repairOverflow {T : Type} (grid : GridDimensions) (layout : Layout T) :
    Except JsErr (Layout T) :=
  repairOverflowGo grid [] layout []

/-- Reading one cell of the matrix at a (possibly out-of-range) position:
`false` outside the matrix. Used only to state properties. -/
def readCell (arr : Grid2DArray) (s : Position) : Bool :=
  if 0 ≤ s.y ∧ s.y < (arr.length : ℤ) then
    (if 0 ≤ s.x ∧ s.x < ((arr.getD s.y.toNat []).length : ℤ) then
      (arr.getD s.y.toNat []).getD s.x.toNat false
    else false)
  else false

/-- Raw in-range read, for statements whose bounds are known. -/
def cellAt (arr : Grid2DArray) (s : Position) : Bool :=
  (arr.getD s.y.toNat []).getD s.x.toNat false

/-- Pure value of `willItemOverlay` (its result whenever it does not throw). -/
def overlayB {T : Type} (arr : Grid2DArray) (item : LayoutItem T) : Bool :=
  (layoutItemToSectors item).any (fun s => readCell arr s)

/-- Whether some item of the layout covers the cell `(x, y)`. -/
def coveredB {T : Type} (layout : Layout T) (x y : ℤ) : Bool :=
  layout.any (fun it =>
    decide (it.x ≤ x) && decide (x < it.x + it.width) &&
      decide (it.y ≤ y) && decide (y < it.y + it.height))

/-- The reference occupancy matrix: exactly the in-bounds coverage of the
layout, independent of any out-of-bounds parts of the items. -/
def buildRef {T : Type} (grid : GridDimensions) (layout : Layout T) : Grid2DArray :=
  (List.range grid.rows).map (fun (r : ℕ) =>
    (List.range grid.columns).map (fun (c : ℕ) => coveredB layout (c : ℤ) (r : ℤ)))

/-- Setting one in-range cell of the matrix to `true`. -/
def writeCell (arr : Grid2DArray) (y x : ℕ) : Grid2DArray :=
  arr.set y ((arr.getD y []).set x true)

/-- A placement of `item` at `q` that is in bounds and whose whole footprint
is free in `arr`. -/
def validPlacement (grid : GridDimensions) (arr : Grid2DArray)
    (item : LayoutItemSize) (q : Position) : Prop :=
  0 ≤ q.x ∧ 0 ≤ q.y ∧ q.x + item.width ≤ (grid.columns : ℤ) ∧
    q.y + item.height ≤ (grid.rows : ℤ) ∧
    ∀ s ∈ layoutItemToSectors (LayoutItem.mk (T := Unit) q.x q.y item.width item.height ()),
      cellAt arr s = false

/-- Matrix dimensions exactly match the grid dimensions. -/
def dimsOk (grid : GridDimensions) (arr : Grid2DArray) : Prop :=
  arr.length = grid.rows ∧ ∀ row ∈ arr, row.length = grid.columns

/-! ### Generic helper lemmas -/

@[simp] lemma except_ok_bind {α β : Type} (a : α) (f : α → Except JsErr β) :
    (Except.ok a >>= f) = f a := rfl

@[simp] lemma except_error_bind {α β : Type} (e : JsErr) (f : α → Except JsErr β) :
    ((Except.error e : Except JsErr α) >>= f) = Except.error e := rfl

lemma getD_set_self {α : Type} (l : List α) (i : ℕ) (a d : α) (h : i < l.length) :
    (l.set i a).getD i d = a := by
  rw [List.getD_eq_getElem?_getD, List.getElem?_set]
  simp [h]

lemma getD_set_ne {α : Type} (l : List α) {i j : ℕ} (hij : i ≠ j) (a d : α) :
    (l.set i a).getD j d = l.getD j d := by
  rw [List.getD_eq_getElem?_getD, List.getElem?_set, if_neg hij,
    ← List.getD_eq_getElem?_getD]

lemma getD_eq_getElem {α : Type} (l : List α) (i : ℕ) (d : α) (h : i < l.length) :
    l.getD i d = l[i] := by
  rw [List.getD_eq_getElem?_getD, List.getElem?_eq_getElem h]
  rfl

lemma foldlM_except_invariant {α β : Type} (f : β → α → Except JsErr β) (P : β → Prop)
    (hstep : ∀ b a b', P b → f b a = .ok b' → P b') :
    ∀ (l : List α) (b r : β), P b → l.foldlM f b = .ok r → P r := by
  intro l
  induction l with
  | nil =>
    intro b r hb h
    rw [List.foldlM_nil] at h
    change Except.ok b = Except.ok r at h
    rw [Except.ok.injEq] at h
    exact h ▸ hb
  | cons a l ih =>
    intro b r hb h
    rw [List.foldlM_cons] at h
    cases hf : f b a with
    | error e => rw [hf] at h; exact absurd h (by simp)
    | ok b' =>
      rw [hf, except_ok_bind] at h
      exact ih b' r (hstep b a b' hb hf) h

/-- If each step of the fold can only fail with errors in `E`, so does the fold. -/
lemma foldlM_except_errors {α β : Type} (f : β → α → Except JsErr β) (E : JsErr → Prop)
    (hstep : ∀ b a e, f b a = .error e → E e) :
    ∀ (l : List α) (b : β), (∃ r, l.foldlM f b = .ok r) ∨
      (∃ e, l.foldlM f b = .error e ∧ E e) := by
  intro l
  induction l with
  | nil => intro b; exact Or.inl ⟨b, rfl⟩
  | cons a l ih =>
    intro b
    cases hf : f b a with
    | error e =>
      refine Or.inr ⟨e, ?_, hstep b a e hf⟩
      rw [List.foldlM_cons, hf, except_error_bind]
    | ok b' =>
      rcases ih b' with ⟨r, hr⟩ | ⟨e, he, hE⟩
      · exact Or.inl ⟨r, by rw [List.foldlM_cons, hf, except_ok_bind]; exact hr⟩
      · exact Or.inr ⟨e, by rw [List.foldlM_cons, hf, except_ok_bind]; exact he, hE⟩

/-! ### Sector lemmas -/

lemma mem_sectors {T : Type} (item : LayoutItem T) (s : Position) :
    s ∈ layoutItemToSectors item ↔
      item.x ≤ s.x ∧ s.x < item.x + item.width ∧
        item.y ≤ s.y ∧ s.y < item.y + item.height := by
  obtain ⟨sx, sy⟩ := s
  unfold layoutItemToSectors
  simp only [List.mem_flatMap, List.mem_map, List.mem_range, Position.mk.injEq]
  constructor
  · rintro ⟨di, hdi, dj, hdj, hx, hy⟩
    omega
  · rintro ⟨h1, h2, h3, h4⟩
    exact ⟨(sx - item.x).toNat, by omega, (sy - item.y).toNat, by omega, by omega, by omega⟩

lemma sectors_y_nonneg {T : Type} (item : LayoutItem T) (hy : 0 ≤ item.y) :
    ∀ s ∈ layoutItemToSectors item, 0 ≤ s.y := by
  intro s hs
  have := (mem_sectors item s).mp hs
  omega

lemma sectors_nodup {T : Type} (item : LayoutItem T) :
    (layoutItemToSectors item).Nodup := by
  unfold layoutItemToSectors
  rw [List.nodup_flatMap]
  constructor
  · intro di _
    refine List.Nodup.map ?_ (List.nodup_range _)
    intro a b hab
    rw [Position.mk.injEq] at hab
    omega
  · refine List.Pairwise.imp ?_ (List.pairwise_lt_range _)
    intro a b hab p hpa hpb
    simp only [List.mem_map, List.mem_range] at hpa hpb
    obtain ⟨c, _, hc⟩ := hpa
    obtain ⟨d, _, hd⟩ := hpb
    rw [← hd, Position.mk.injEq] at hc
    omega

/-! ### Reading and writing cells -/

lemma readCell_eq_cellAt (arr : Grid2DArray) (s : Position)
    (h1 : 0 ≤ s.y) (h2 : s.y < (arr.length : ℤ)) (h3 : 0 ≤ s.x)
    (h4 : s.x < ((arr.getD s.y.toNat []).length : ℤ)) :
    readCell arr s = cellAt arr s := by
  unfold readCell cellAt
  rw [if_pos ⟨h1, h2⟩, if_pos ⟨h3, h4⟩]

lemma readCell_oob (arr : Grid2DArray) (s : Position)
    (h : ¬(0 ≤ s.y ∧ s.y < (arr.length : ℤ)) ∨
      ¬(0 ≤ s.x ∧ s.x < ((arr.getD s.y.toNat []).length : ℤ))) :
    readCell arr s = false := by
  unfold readCell
  rcases h with h | h
  · rw [if_neg h]
  · by_cases h' : 0 ≤ s.y ∧ s.y < (arr.length : ℤ)
    · rw [if_pos h', if_neg h]
    · rw [if_neg h']

lemma dimsOk_emptyGrid (grid : GridDimensions) : dimsOk grid (emptyGrid grid) := by
  constructor
  · simp [emptyGrid]
  · intro row hrow
    rw [emptyGrid, List.mem_replicate] at hrow
    rw [hrow.2]
    simp

lemma dimsOk_set (grid : GridDimensions) (arr : Grid2DArray) (y : ℕ) (row : List Bool)
    (hd : dimsOk grid arr) (hrow : row.length = grid.columns) :
    dimsOk grid (arr.set y row) := by
  refine ⟨by rw [List.length_set]; exact hd.1, ?_⟩
  intro r hr
  rcases List.mem_or_eq_of_mem_set hr with h | h
  · exact hd.2 r h
  · rw [h]; exact hrow

lemma dimsOk_getD_length (grid : GridDimensions) (arr : Grid2DArray) (hd : dimsOk grid arr)
    (y : ℕ) (hy : y < grid.rows) :
    (arr.getD y []).length = grid.columns := by
  have hlen : y < arr.length := by rw [hd.1]; exact hy
  rw [getD_eq_getElem arr y [] hlen]
  exact hd.2 _ (List.getElem_mem hlen)

lemma markSector_dims (grid : GridDimensions) (ao : Bool)
    (st : Grid2DArray × List Position) (s : Position) (st' : Grid2DArray × List Position)
    (h : markSector grid ao st s = .ok st') (hd : dimsOk grid st.1) :
    dimsOk grid st'.1 := by
  unfold markSector at h
  split_ifs at h with h1 h2 h3 h4 h5
  · rw [Except.ok.injEq] at h
    exact h ▸ hd
  · rw [Except.ok.injEq] at h
    exact h ▸ (show dimsOk grid (st.1, st.2.insert s).1 from hd)
  · rw [Except.ok.injEq] at h
    refine h ▸ (show dimsOk grid
      (Prod.mk (st.1.set s.y.toNat ((st.1.getD s.y.toNat []).set s.x.toNat true)) st.2).1
      from ?_)
    refine dimsOk_set grid st.1 _ _ hd ?_
    rw [List.length_set]
    exact dimsOk_getD_length grid st.1 hd s.y.toNat (by omega)

lemma layoutTo2DArray_dims {T : Type} (grid : GridDimensions) (layout : Layout T)
    (ao : Bool) (arr : Grid2DArray) (h : layoutTo2DArray grid layout ao = .ok arr) :
    dimsOk grid arr := by
  unfold layoutTo2DArray at h
  cases hfull : layoutTo2DArrayFull grid layout ao with
  | error e =>
    rw [hfull] at h
    exact Except.noConfusion h
  | ok st =>
    rw [hfull] at h
    change Except.ok st.1 = Except.ok arr at h
    rw [Except.ok.injEq] at h
    unfold layoutTo2DArrayFull at hfull
    refine h ▸ foldlM_except_invariant _ (fun c => dimsOk grid c.1) ?_ layout
      (emptyGrid grid, []) st (dimsOk_emptyGrid grid) hfull
    intro b it b' hb hstep
    exact foldlM_except_invariant _ (fun c => dimsOk grid c.1)
      (fun c s c' hc h' => markSector_dims grid ao c s c' h' hc)
      (layoutItemToSectors it) b b' hb hstep

/-! ### Pure characterisation of `willItemOverlay` -/

lemma readCell_eq_true_iff (arr : Grid2DArray) (s : Position) :
    readCell arr s = true ↔
      (0 ≤ s.y ∧ s.y < (arr.length : ℤ)) ∧
        (0 ≤ s.x ∧ s.x < ((arr.getD s.y.toNat []).length : ℤ)) ∧
        cellAt arr s = true := by
  unfold readCell cellAt
  split_ifs with h1 h2
  · exact ⟨fun h => ⟨h1, h2, h⟩, fun h => h.2.2⟩
  · exact iff_of_false (by simp) (fun h => h2 h.2.1)
  · exact iff_of_false (by simp) (fun h => h1 h.1)

lemma overlayGo_eq_any (arr : Grid2DArray) :
    ∀ (ss : List Position), (∀ s ∈ ss, 0 ≤ s.y) →
      overlayGo arr ss = .ok (ss.any (fun s => readCell arr s)) := by
  intro ss
  induction ss with
  | nil => intro _; rfl
  | cons s rest ih =>
    intro h
    have hy : 0 ≤ s.y := h s (List.mem_cons_self s rest)
    have ih' := ih (fun t ht => h t (List.mem_cons_of_mem _ ht))
    rw [List.any_cons]
    unfold overlayGo
    split_ifs with h1 h2 h3 h4 h5
    · have hr : readCell arr s = false :=
        readCell_oob arr s (Or.inl (by omega))
      rw [ih', hr]
      simp
    · exact absurd hy (by omega)
    · have hr : readCell arr s = false :=
        readCell_oob arr s (Or.inr (by omega))
      rw [ih', hr]
      simp
    · have hr : readCell arr s = false :=
        readCell_oob arr s (Or.inr (by omega))
      rw [ih', hr]
      simp
    · have hr : readCell arr s = true := by
        rw [readCell_eq_true_iff]
        exact ⟨⟨hy, by omega⟩, ⟨by omega, by omega⟩, h5⟩
      rw [hr]
      simp
    · have hr : readCell arr s = false := by
        rw [readCell_eq_cellAt arr s hy (by omega) (by omega) (by omega)]
        unfold cellAt
        exact Bool.not_eq_true _ ▸ h5
      rw [ih', hr]
      simp

lemma willItemOverlay_eq_overlayB {T : Type} (arr : Grid2DArray) (item : LayoutItem T)
    (hy : 0 ≤ item.y) :
    willItemOverlay arr item = .ok (overlayB arr item) :=
  overlayGo_eq_any arr _ (sectors_y_nonneg item hy)

/-- Claim C6 (amended): for every occupancy matrix and every candidate item
with nonnegative `y` (its `x` may be negative or overhang), `willItemOverlay`
returns normally, and it returns `true` iff some cell of the candidate's
footprint that lies within the matrix bounds is occupied; footprint cells
outside the matrix bounds are ignored. (With a negative `y` the function
instead throws a TypeError, see the counterexample.) -/
theorem willItemOverlay_semantics {T : Type} (arr : Grid2DArray) (item : LayoutItem T)
    (hy : 0 ≤ item.y) :
    ∃ b, willItemOverlay arr item = .ok b ∧
      (b = true ↔ ∃ s ∈ layoutItemToSectors item,
        (0 ≤ s.y ∧ s.y < (arr.length : ℤ) ∧ 0 ≤ s.x ∧
          s.x < ((arr.getD s.y.toNat []).length : ℤ)) ∧ cellAt arr s = true) := by
  refine ⟨overlayB arr item, willItemOverlay_eq_overlayB arr item hy, ?_⟩
  unfold overlayB
  rw [List.any_eq_true]
  constructor
  · rintro ⟨s, hs, hr⟩
    rw [readCell_eq_true_iff] at hr
    exact ⟨s, hs, ⟨hr.1.1, hr.1.2, hr.2.1.1, hr.2.1.2⟩, hr.2.2⟩
  · rintro ⟨s, hs, hb, hc⟩
    refine ⟨s, hs, ?_⟩
    rw [readCell_eq_true_iff]
    exact ⟨⟨hb.1, hb.2.1⟩, ⟨hb.2.2.1, hb.2.2.2⟩, hc⟩

/-- Witness for C6 at a concrete input: a `1 × 1` matrix with its one cell
occupied, and a `1 × 1` candidate at the origin. -/
theorem willItemOverlay_semantics_witness :
    ∃ b, willItemOverlay [[true]] (LayoutItem.mk (T := Unit) 0 0 1 1 ()) = .ok b ∧
      (b = true ↔ ∃ s ∈ layoutItemToSectors (LayoutItem.mk (T := Unit) 0 0 1 1 ()),
        (0 ≤ s.y ∧ s.y < (([[true]] : Grid2DArray).length : ℤ) ∧ 0 ≤ s.x ∧
          s.x < ((([[true]] : Grid2DArray).getD s.y.toNat []).length : ℤ)) ∧
          cellAt [[true]] s = true) :=
  willItemOverlay_semantics [[true]] (LayoutItem.mk (T := Unit) 0 0 1 1 ()) (by decide)

/-- Counterexample to C6 as stated: for a candidate whose footprint has a
negative `y` cell, `willItemOverlay` does not return a boolean at all (the
claim asserts it returns `false` here, since no in-bounds cell collides); it
throws a TypeError reading `arr[-1].length`. -/
theorem willItemOverlay_counterexample :
    willItemOverlay [[false]] (LayoutItem.mk (T := Unit) 0 (-1) 1 1 ()) =
      .error .typeError := rfl

/-- Claim C9: whenever occupancy construction returns normally, the matrix
has exactly `rows` rows and every row has exactly `columns` entries,
regardless of the layout's contents and of `allowOverlay`. -/
theorem layoutTo2DArray_dims_invariant {T : Type} (grid : GridDimensions)
    (layout : Layout T) (ao : Bool) (arr : Grid2DArray)
    (h : layoutTo2DArray grid layout ao = .ok arr) :
    arr.length = grid.rows ∧ ∀ row ∈ arr, row.length = grid.columns :=
  layoutTo2DArray_dims grid layout ao arr h

/-- Witness for C9 at a concrete input: a `2 × 1` grid with one item. -/
theorem layoutTo2DArray_dims_invariant_witness :
    ([[true, false]] : Grid2DArray).length = 1 ∧
      ∀ row ∈ ([[true, false]] : Grid2DArray), row.length = 2 :=
  layoutTo2DArray_dims_invariant (GridDimensions.mk 10 2 1 2 1)
    [LayoutItem.mk (T := Unit) 0 0 1 1 ()] false [[true, false]] rfl

/-! ### Marking cells: pointwise description -/

def inBp (grid : GridDimensions) (s : Position) : Prop :=
  0 ≤ s.x ∧ s.x < (grid.columns : ℤ) ∧ 0 ≤ s.y ∧ s.y < (grid.rows : ℤ)

instance inBp_decidable (grid : GridDimensions) (s : Position) : Decidable (inBp grid s) := by
  unfold inBp
  infer_instance

/-- A tracked cell: one the `forEach` body reaches its read/write for (when
`s.y ≥ 0`): the guard skips `s.x ≥ columns` and `s.y ≥ rows`. A tracked cell
with `s.x ≥ 0` is an index entry of the matrix; one with `s.x < 0` is an own
property of the row object. -/
def trackedp (grid : GridDimensions) (s : Position) : Prop :=
  s.x < (grid.columns : ℤ) ∧ 0 ≤ s.y ∧ s.y < (grid.rows : ℤ)

instance trackedp_decidable (grid : GridDimensions) (s : Position) :
    Decidable (trackedp grid s) := by
  unfold trackedp
  infer_instance

lemma inBp_tracked (grid : GridDimensions) (s : Position) (h : inBp grid s) :
    trackedp grid s := by
  unfold inBp at h
  exact ⟨h.2.1, h.2.2.1, h.2.2.2⟩

lemma getD_set {α : Type} (l : List α) (i j : ℕ) (a d : α) :
    (l.set i a).getD j d = if i = j ∧ i < l.length then a else l.getD j d := by
  by_cases h1 : i = j
  · subst h1
    by_cases h2 : i < l.length
    · rw [if_pos ⟨rfl, h2⟩]
      exact getD_set_self l i a d h2
    · rw [if_neg (fun hc => h2 hc.2), List.getD_eq_getElem?_getD, List.getElem?_set,
        if_pos rfl, if_neg h2, List.getD_eq_getElem?_getD,
        List.getElem?_eq_none (le_of_not_lt h2)]
  · rw [if_neg (fun hc => h1 hc.1)]
    exact getD_set_ne l h1 a d

lemma cellAt_writeCell (arr : Grid2DArray) (y x : ℕ) (s : Position) :
    cellAt (writeCell arr y x) s =
      if s.y.toNat = y ∧ s.x.toNat = x ∧ y < arr.length ∧ x < (arr.getD y []).length
      then true else cellAt arr s := by
  unfold cellAt writeCell
  rw [getD_set]
  by_cases h1 : y = s.y.toNat ∧ y < arr.length
  · obtain ⟨hy, hlen⟩ := h1
    subst hy
    rw [if_pos ⟨rfl, hlen⟩, getD_set]
    by_cases h2 : x = s.x.toNat ∧ x < (arr.getD s.y.toNat []).length
    · rw [if_pos h2, if_pos ⟨rfl, h2.1.symm, hlen, h2.2⟩]
    · rw [if_neg h2, if_neg (fun hc => h2 ⟨hc.2.1.symm, hc.2.2.2⟩)]
  · rw [if_neg h1, if_neg (fun hc => h1 ⟨hc.1.symm, hc.2.2.1⟩)]

/-- The value `arr[s.y][s.x]` reads at a tracked cell: the row's index part
for `s.x ≥ 0`, the row object's own properties for `s.x < 0`. -/
def stRead (st : Grid2DArray × List Position) (s : Position) : Bool :=
  if s.x < 0 then decide (s ∈ st.2) else cellAt st.1 s

/-- The effect of `arr[s.y][s.x] = true` at a tracked cell. -/
def stWrite (st : Grid2DArray × List Position) (s : Position) :
    Grid2DArray × List Position :=
  if s.x < 0 then (st.1, st.2.insert s)
  else (writeCell st.1 s.y.toNat s.x.toNat, st.2)

/-- The pure effect of marking a list of sectors with `allowOverlay = true`:
every in-bounds sector is written, everything else is skipped. -/
def markAll (grid : GridDimensions) : Grid2DArray → List Position → Grid2DArray
  | arr, [] => arr
  | arr, s :: ss =>
    markAll grid (if inBp grid s then writeCell arr s.y.toNat s.x.toNat else arr) ss

lemma dimsOk_writeCell_inB (grid : GridDimensions) (arr : Grid2DArray)
    (hd : dimsOk grid arr) (s : Position) (hin : inBp grid s) :
    dimsOk grid (writeCell arr s.y.toNat s.x.toNat) := by
  unfold writeCell
  refine dimsOk_set grid arr _ _ hd ?_
  rw [List.length_set]
  exact dimsOk_getD_length grid arr hd s.y.toNat (by unfold inBp at hin; omega)

lemma dimsOk_markAll (grid : GridDimensions) :
    ∀ (ss : List Position) (arr : Grid2DArray), dimsOk grid arr →
      dimsOk grid (markAll grid arr ss) := by
  intro ss
  induction ss with
  | nil => intro arr hd; exact hd
  | cons s ss ih =>
    intro arr hd
    unfold markAll
    by_cases hin : inBp grid s
    · rw [if_pos hin]
      exact ih _ (dimsOk_writeCell_inB grid arr hd s hin)
    · rw [if_neg hin]
      exact ih _ hd

lemma cellAt_markAll (grid : GridDimensions) :
    ∀ (ss : List Position) (arr : Grid2DArray), dimsOk grid arr →
      ∀ s' : Position, inBp grid s' →
        cellAt (markAll grid arr ss) s' = (cellAt arr s' || decide (s' ∈ ss)) := by
  intro ss
  induction ss with
  | nil => intro arr _ s' _; simp [markAll]
  | cons s ss ih =>
    intro arr hd s' h'
    unfold markAll
    by_cases hin : inBp grid s
    · rw [if_pos hin, ih _ (dimsOk_writeCell_inB grid arr hd s hin) s' h',
        cellAt_writeCell]
      have hb3 : s.y.toNat < arr.length := by
        unfold inBp at hin
        rw [hd.1]
        omega
      have hb4 : s.x.toNat < (arr.getD s.y.toNat []).length := by
        rw [dimsOk_getD_length grid arr hd s.y.toNat (by unfold inBp at hin; omega)]
        unfold inBp at hin
        omega
      by_cases heq : s' = s
      · rw [if_pos ⟨by rw [heq], by rw [heq], hb3, hb4⟩]
        simp [List.mem_cons, heq]
      · have hne : ¬(s'.y.toNat = s.y.toNat ∧ s'.x.toNat = s.x.toNat ∧
            s.y.toNat < arr.length ∧ s.x.toNat < (arr.getD s.y.toNat []).length) := by
          intro hc
          apply heq
          obtain ⟨a, b⟩ := s'
          obtain ⟨c, d⟩ := s
          unfold inBp at h' hin
          simp only [Position.mk.injEq]
          simp only at hc h' hin
          omega
        rw [if_neg hne]
        simp [List.mem_cons, heq]
    · rw [if_neg hin, ih _ hd s' h']
      have hne : s' ≠ s := fun h => hin (h ▸ h')
      simp [List.mem_cons, hne]

/-! ### The state effect of marking: `markAllSt` -/

lemma stRead_neg (st : Grid2DArray × List Position) (s : Position) (hx : s.x < 0) :
    stRead st s = decide (s ∈ st.2) := by
  unfold stRead
  rw [if_pos hx]

lemma stRead_nonneg (st : Grid2DArray × List Position) (s : Position) (hx : ¬s.x < 0) :
    stRead st s = cellAt st.1 s := by
  unfold stRead
  rw [if_neg hx]

lemma stWrite_neg (st : Grid2DArray × List Position) (s : Position) (hx : s.x < 0) :
    stWrite st s = (st.1, st.2.insert s) := by
  unfold stWrite
  rw [if_pos hx]

lemma stWrite_nonneg (st : Grid2DArray × List Position) (s : Position) (hx : ¬s.x < 0) :
    stWrite st s = (writeCell st.1 s.y.toNat s.x.toNat, st.2) := by
  unfold stWrite
  rw [if_neg hx]

/-- The pure effect of marking a list of sectors on the full state with
`allowOverlay = true`: every tracked sector is written (matrix entry or row
property), everything else is skipped. -/
def markAllSt (grid : GridDimensions) :
    Grid2DArray × List Position → List Position → Grid2DArray × List Position
  | st, [] => st
  | st, s :: ss => markAllSt grid (if trackedp grid s then stWrite st s else st) ss

lemma markAllSt_fst (grid : GridDimensions) :
    ∀ (ss : List Position) (st : Grid2DArray × List Position),
      (markAllSt grid st ss).1 = markAll grid st.1 ss := by
  intro ss
  induction ss with
  | nil => intro st; rfl
  | cons s ss ih =>
    intro st
    unfold markAllSt markAll
    rw [ih]
    have harr : (if trackedp grid s then stWrite st s else st).1 =
        (if inBp grid s then writeCell st.1 s.y.toNat s.x.toNat else st.1) := by
      by_cases ht : trackedp grid s
      · by_cases hx : s.x < 0
        · have hni : ¬inBp grid s := by unfold inBp; omega
          rw [if_pos ht, if_neg hni, stWrite_neg st s hx]
        · have hin : inBp grid s := by
            obtain ⟨ht1, ht2, ht3⟩ := ht
            exact ⟨by omega, ht1, ht2, ht3⟩
          rw [if_pos ht, if_pos hin, stWrite_nonneg st s hx]
      · have hni : ¬inBp grid s := fun hc => ht (inBp_tracked grid s hc)
        rw [if_neg ht, if_neg hni]
    rw [harr]

lemma markAllSt_snd_mem (grid : GridDimensions) :
    ∀ (ss : List Position) (st : Grid2DArray × List Position) (t : Position),
      t ∈ (markAllSt grid st ss).2 ↔
        t ∈ st.2 ∨ (t ∈ ss ∧ t.x < 0 ∧ trackedp grid t) := by
  intro ss
  induction ss with
  | nil =>
    intro st t
    simp [markAllSt]
  | cons s ss ih =>
    intro st t
    unfold markAllSt
    rw [ih]
    constructor
    · rintro (hm | ⟨hmem, hx, htr⟩)
      · by_cases hts : trackedp grid s
        · rw [if_pos hts] at hm
          by_cases hsx : s.x < 0
          · rw [stWrite_neg st s hsx] at hm
            rcases List.mem_insert_iff.mp hm with heq | hm'
            · exact Or.inr ⟨by rw [heq]; exact List.mem_cons_self s ss,
                by rw [heq]; exact hsx, by rw [heq]; exact hts⟩
            · exact Or.inl hm'
          · rw [stWrite_nonneg st s hsx] at hm
            exact Or.inl hm
        · rw [if_neg hts] at hm
          exact Or.inl hm
      · exact Or.inr ⟨List.mem_cons_of_mem _ hmem, hx, htr⟩
    · rintro (hm | ⟨hmem, hx, htr⟩)
      · refine Or.inl ?_
        by_cases hts : trackedp grid s
        · rw [if_pos hts]
          by_cases hsx : s.x < 0
          · rw [stWrite_neg st s hsx]
            exact List.mem_insert_iff.mpr (Or.inr hm)
          · rw [stWrite_nonneg st s hsx]
            exact hm
        · rw [if_neg hts]
          exact hm
      · rcases List.mem_cons.mp hmem with rfl | hmem'
        · refine Or.inl ?_
          rw [if_pos htr, stWrite_neg st t hx]
          exact List.mem_insert_iff.mpr (Or.inl rfl)
        · exact Or.inr ⟨hmem', hx, htr⟩

/-! ### Case lemmas for `markSector` -/

lemma markSector_skip (grid : GridDimensions) (ao : Bool)
    (st : Grid2DArray × List Position) (s : Position)
    (hy : 0 ≤ s.y) (hnt : ¬trackedp grid s) :
    markSector grid ao st s = .ok st := by
  unfold markSector
  unfold trackedp at hnt
  split_ifs with h1 h2 h3 h4 h5
  · rfl
  · omega
  · omega
  · omega
  · omega
  · omega

lemma markSector_write (grid : GridDimensions) (ao : Bool)
    (st : Grid2DArray × List Position) (s : Position) (ht : trackedp grid s)
    (hcell : stRead st s = false ∨ ao = true) :
    markSector grid ao st s = .ok (stWrite st s) := by
  unfold markSector
  obtain ⟨ht1, ht2, ht3⟩ := ht
  unfold stRead at hcell
  split_ifs with h1 h2 h3 h4 h5
  · omega
  · omega
  · rw [if_pos h3] at hcell
    rcases hcell with hc | hc
    · rw [hc] at h4
      simp at h4
    · rw [hc] at h4
      simp at h4
  · rw [stWrite_neg st s h3]
  · rw [if_neg h3] at hcell
    unfold cellAt at hcell
    rcases hcell with hc | hc
    · rw [hc] at h5
      simp at h5
    · rw [hc] at h5
      simp at h5
  · rw [stWrite_nonneg st s h3]
    exact rfl

lemma markSector_hit (grid : GridDimensions) (st : Grid2DArray × List Position)
    (s : Position) (ht : trackedp grid s) (hr : stRead st s = true) :
    markSector grid false st s = .error .overlapError := by
  unfold markSector
  obtain ⟨ht1, ht2, ht3⟩ := ht
  unfold stRead at hr
  split_ifs with h1 h2 h3 h4 h5
  · omega
  · omega
  · rfl
  · rw [if_pos h3] at hr
    rw [hr] at h4
    simp at h4
  · rfl
  · rw [if_neg h3] at hr
    unfold cellAt at hr
    rw [hr] at h5
    simp at h5

/-! ### Folding `markSector` over a sector list -/

lemma stRead_stWrite_ne (grid : GridDimensions) (st : Grid2DArray × List Position)
    (s t : Position) (hs : trackedp grid s) (ht : trackedp grid t) (hne : t ≠ s) :
    stRead (stWrite st s) t = stRead st t := by
  by_cases hsx : s.x < 0
  · rw [stWrite_neg st s hsx]
    by_cases htx : t.x < 0
    · rw [stRead_neg _ t htx, stRead_neg st t htx]
      show decide (t ∈ st.2.insert s) = decide (t ∈ st.2)
      refine decide_eq_decide.mpr ?_
      rw [List.mem_insert_iff]
      exact ⟨fun h => h.resolve_left hne, Or.inr⟩
    · rw [stRead_nonneg _ t htx, stRead_nonneg st t htx]
  · rw [stWrite_nonneg st s hsx]
    by_cases htx : t.x < 0
    · rw [stRead_neg _ t htx, stRead_neg st t htx]
    · rw [stRead_nonneg _ t htx, stRead_nonneg st t htx]
      show cellAt (writeCell st.1 s.y.toNat s.x.toNat) t = cellAt st.1 t
      rw [cellAt_writeCell]
      refine if_neg (fun hc => ?_)
      apply hne
      obtain ⟨a, b⟩ := t
      obtain ⟨c, d⟩ := s
      unfold trackedp at hs ht
      simp only [Position.mk.injEq]
      simp only at hc hs ht hsx htx
      omega

lemma foldlM_markSector_true (grid : GridDimensions) :
    ∀ (ss : List Position) (st : Grid2DArray × List Position), (∀ s ∈ ss, 0 ≤ s.y) →
      ss.foldlM (markSector grid true) st = .ok (markAllSt grid st ss) := by
  intro ss
  induction ss with
  | nil => intro st _; rfl
  | cons s ss ih =>
    intro st h
    have hy : 0 ≤ s.y := h s (List.mem_cons_self s ss)
    have h' := fun t ht => h t (List.mem_cons_of_mem _ ht)
    rw [List.foldlM_cons]
    unfold markAllSt
    by_cases htr : trackedp grid s
    · rw [markSector_write grid true st s htr (Or.inr rfl), except_ok_bind,
        ih _ h', if_pos htr]
    · rw [markSector_skip grid true st s hy htr, except_ok_bind, ih _ h', if_neg htr]

lemma foldlM_markSector_false (grid : GridDimensions) :
    ∀ (ss : List Position) (st : Grid2DArray × List Position),
      (∀ s ∈ ss, 0 ≤ s.y) → ss.Nodup →
      ((∃ s ∈ ss, trackedp grid s ∧ stRead st s = true) →
        ss.foldlM (markSector grid false) st = .error .overlapError) ∧
      ((¬∃ s ∈ ss, trackedp grid s ∧ stRead st s = true) →
        ss.foldlM (markSector grid false) st = .ok (markAllSt grid st ss)) := by
  intro ss
  induction ss with
  | nil =>
    intro st _ _
    exact ⟨fun h => absurd h (by simp), fun _ => rfl⟩
  | cons s ss ih =>
    intro st h hnd
    have hy : 0 ≤ s.y := h s (List.mem_cons_self s ss)
    have h' := fun t ht => h t (List.mem_cons_of_mem _ ht)
    have hnd' : ss.Nodup := hnd.of_cons
    have hsnot : s ∉ ss := (List.nodup_cons.mp hnd).1
    rw [List.foldlM_cons]
    unfold markAllSt
    by_cases htr : trackedp grid s
    · by_cases hcell : stRead st s = true
      · rw [markSector_hit grid st s htr hcell, except_error_bind]
        exact ⟨fun _ => rfl,
          fun hno => absurd ⟨s, List.mem_cons_self s ss, htr, hcell⟩ hno⟩
      · replace hcell : stRead st s = false := by
          cases hb : stRead st s
          · rfl
          · exact absurd hb hcell
        rw [markSector_write grid false st s htr (Or.inl hcell), except_ok_bind,
          if_pos htr]
        have hcells : ∀ t ∈ ss, trackedp grid t →
            stRead (stWrite st s) t = stRead st t := by
          intro t ht htin
          refine stRead_stWrite_ne grid st s t htr htin (fun hts => ?_)
          exact hsnot (hts ▸ ht)
        have hiff : (∃ t ∈ ss, trackedp grid t ∧ stRead (stWrite st s) t = true) ↔
            (∃ t ∈ ss, trackedp grid t ∧ stRead st t = true) := by
          constructor
          · rintro ⟨t, ht, htin, htc⟩
            exact ⟨t, ht, htin, (hcells t ht htin) ▸ htc⟩
          · rintro ⟨t, ht, htin, htc⟩
            exact ⟨t, ht, htin, (hcells t ht htin).symm ▸ htc⟩
        constructor
        · rintro ⟨t, ht, htin, htc⟩
          rcases List.mem_cons.mp ht with rfl | ht'
          · exact absurd htc (by rw [hcell]; simp)
          · exact (ih _ h' hnd').1 (hiff.mpr ⟨t, ht', htin, htc⟩)
        · intro hno
          refine (ih _ h' hnd').2 (fun hc => hno ?_)
          rcases hiff.mp hc with ⟨t, ht, htin, htc⟩
          exact ⟨t, List.mem_cons_of_mem _ ht, htin, htc⟩
    · rw [markSector_skip grid false st s hy htr, except_ok_bind, if_neg htr]
      constructor
      · rintro ⟨t, ht, htin, htc⟩
        rcases List.mem_cons.mp ht with rfl | ht'
        · exact absurd htin htr
        · exact (ih _ h' hnd').1 ⟨t, ht', htin, htc⟩
      · intro hno
        refine (ih _ h' hnd').2 (fun hc => hno ?_)
        rcases hc with ⟨t, ht, htin, htc⟩
        exact ⟨t, List.mem_cons_of_mem _ ht, htin, htc⟩

/-! ### The reference matrix `buildRef` -/

lemma coveredB_iff {T : Type} (layout : Layout T) (x y : ℤ) :
    coveredB layout x y = true ↔
      ∃ it ∈ layout, Position.mk x y ∈ layoutItemToSectors it := by
  unfold coveredB
  rw [List.any_eq_true]
  constructor
  · rintro ⟨it, hit, hc⟩
    refine ⟨it, hit, ?_⟩
    rw [mem_sectors]
    simp only [Bool.and_eq_true, decide_eq_true_eq] at hc
    exact ⟨hc.1.1.1, hc.1.1.2, hc.1.2, hc.2⟩
  · rintro ⟨it, hit, hc⟩
    refine ⟨it, hit, ?_⟩
    rw [mem_sectors] at hc
    simp only [Bool.and_eq_true, decide_eq_true_eq]
    exact ⟨⟨⟨hc.1, hc.2.1⟩, hc.2.2.1⟩, hc.2.2.2⟩

lemma coveredB_append {T : Type} (l1 l2 : Layout T) (x y : ℤ) :
    coveredB (l1 ++ l2) x y = (coveredB l1 x y || coveredB l2 x y) :=
  List.any_append

lemma coveredB_singleton {T : Type} (it : LayoutItem T) (x y : ℤ) :
    coveredB [it] x y = decide (Position.mk x y ∈ layoutItemToSectors it) := by
  by_cases hm : Position.mk x y ∈ layoutItemToSectors it
  · rw [decide_eq_true hm]
    exact (coveredB_iff [it] x y).mpr ⟨it, List.mem_singleton_self it, hm⟩
  · rw [decide_eq_false hm, Bool.eq_false_iff]
    intro hc
    rcases (coveredB_iff [it] x y).mp hc with ⟨it', h1, h2⟩
    rw [List.mem_singleton] at h1
    exact hm (h1 ▸ h2)

lemma dimsOk_buildRef {T : Type} (grid : GridDimensions) (layout : Layout T) :
    dimsOk grid (buildRef grid layout) := by
  constructor
  · simp [buildRef]
  · intro row hrow
    unfold buildRef at hrow
    rw [List.mem_map] at hrow
    obtain ⟨r, _, hr⟩ := hrow
    rw [← hr]
    simp

lemma cellAt_buildRef {T : Type} (grid : GridDimensions) (layout : Layout T)
    (s : Position) (hin : inBp grid s) :
    cellAt (buildRef grid layout) s = coveredB layout s.x s.y := by
  unfold inBp at hin
  have hy : s.y.toNat < grid.rows := by omega
  have hx : s.x.toNat < grid.columns := by omega
  unfold cellAt buildRef
  rw [getD_eq_getElem _ s.y.toNat _ (by simpa using hy)]
  rw [List.getElem_map, List.getElem_range]
  rw [getD_eq_getElem _ s.x.toNat _ (by simpa using hx)]
  rw [List.getElem_map, List.getElem_range,
    Int.toNat_of_nonneg (by omega), Int.toNat_of_nonneg (by omega)]

lemma grid_ext (grid : GridDimensions) (A B : Grid2DArray)
    (hA : dimsOk grid A) (hB : dimsOk grid B)
    (h : ∀ s : Position, inBp grid s → cellAt A s = cellAt B s) : A = B := by
  refine List.ext_getElem (by rw [hA.1, hB.1]) (fun r h1 h2 => ?_)
  refine List.ext_getElem
    (by rw [hA.2 _ (List.getElem_mem h1), hB.2 _ (List.getElem_mem h2)])
    (fun c hc1 hc2 => ?_)
  have hr : r < grid.rows := by rw [← hA.1]; exact h1
  have hcc : c < grid.columns := by
    rw [← hA.2 _ (List.getElem_mem h1)]; exact hc1
  have hs := h (Position.mk (c : ℤ) (r : ℤ))
    (by unfold inBp; refine ⟨?_, ?_, ?_, ?_⟩ <;> simp <;> omega)
  unfold cellAt at hs
  simp only [Int.toNat_natCast] at hs
  rw [getD_eq_getElem _ _ _ h1, getD_eq_getElem _ _ _ h2,
    getD_eq_getElem _ _ _ hc1, getD_eq_getElem _ _ _ hc2] at hs
  exact hs

lemma markAll_sectors_buildRef {T : Type} (grid : GridDimensions) (pfx : Layout T)
    (it : LayoutItem T) (_hy : 0 ≤ it.y) :
    markAll grid (buildRef grid pfx) (layoutItemToSectors it) =
      buildRef grid (pfx ++ [it]) := by
  refine grid_ext grid _ _
    (dimsOk_markAll grid _ _ (dimsOk_buildRef grid pfx)) (dimsOk_buildRef grid _) ?_
  intro s hin
  rw [cellAt_markAll grid _ _ (dimsOk_buildRef grid pfx) s hin,
    cellAt_buildRef grid pfx s hin, cellAt_buildRef grid _ s hin, coveredB_append,
    coveredB_singleton]

lemma emptyGrid_eq_buildRef {T : Type} (grid : GridDimensions) :
    emptyGrid grid = buildRef grid ([] : Layout T) := by
  refine grid_ext grid _ _ (dimsOk_emptyGrid grid) (dimsOk_buildRef grid []) ?_
  intro s hin
  unfold inBp at hin
  rw [cellAt_buildRef grid [] s (by exact ⟨hin.1, hin.2.1, hin.2.2.1, hin.2.2.2⟩)]
  unfold cellAt emptyGrid coveredB
  rw [getD_eq_getElem _ s.y.toNat _ (by simp; omega)]
  rw [List.getElem_replicate]
  rw [getD_eq_getElem _ s.x.toNat _ (by simp; omega)]
  rw [List.getElem_replicate]
  rfl

/-! ### Layout-level characterisation of `layoutTo2DArray` -/

/-- The property-list characterisation carried through the build: membership
is exactly the negative-`x` tracked cells covered by the processed prefix. -/
def propsChar {T : Type} (grid : GridDimensions) (pfx : Layout T)
    (P : List Position) : Prop :=
  ∀ t : Position, t ∈ P ↔ (t.x < 0 ∧ trackedp grid t ∧ coveredB pfx t.x t.y = true)

lemma propsChar_nil {T : Type} (grid : GridDimensions) :
    propsChar grid ([] : Layout T) ([] : List Position) := by
  intro t
  simp [coveredB]

lemma stRead_propsChar {T : Type} (grid : GridDimensions) (pfx : Layout T)
    (P : List Position) (hP : propsChar grid pfx P) (s : Position)
    (hs : trackedp grid s) :
    stRead (buildRef grid pfx, P) s = coveredB pfx s.x s.y := by
  by_cases hx : s.x < 0
  · rw [stRead_neg _ s hx]
    by_cases hm : s ∈ P
    · have hcov := ((hP s).mp hm).2.2
      show decide (s ∈ P) = coveredB pfx s.x s.y
      rw [hcov, decide_eq_true hm]
    · have hcov : coveredB pfx s.x s.y = false := by
        cases hcv : coveredB pfx s.x s.y
        · rfl
        · exact absurd ((hP s).mpr ⟨hx, hs, hcv⟩) hm
      show decide (s ∈ P) = coveredB pfx s.x s.y
      rw [hcov, decide_eq_false hm]
  · rw [stRead_nonneg _ s hx]
    show cellAt (buildRef grid pfx) s = coveredB pfx s.x s.y
    refine cellAt_buildRef grid pfx s ?_
    obtain ⟨hs1, hs2, hs3⟩ := hs
    exact ⟨by omega, hs1, hs2, hs3⟩

lemma markAllSt_sectors_prop {T : Type} (grid : GridDimensions) (pfx : Layout T)
    (arr : Grid2DArray) (P : List Position) (hP : propsChar grid pfx P)
    (it : LayoutItem T) :
    propsChar grid (pfx ++ [it])
      (markAllSt grid (arr, P) (layoutItemToSectors it)).2 := by
  intro t
  rw [markAllSt_snd_mem]
  constructor
  · rintro (hm | ⟨hmem, hx, htr⟩)
    · obtain ⟨hx, htr, hcov⟩ := (hP t).mp hm
      refine ⟨hx, htr, ?_⟩
      rw [coveredB_append, hcov, Bool.true_or]
    · refine ⟨hx, htr, ?_⟩
      rw [coveredB_append, Bool.or_eq_true]
      refine Or.inr ?_
      rw [coveredB_singleton]
      exact decide_eq_true hmem
  · rintro ⟨hx, htr, hcov⟩
    rw [coveredB_append, Bool.or_eq_true] at hcov
    rcases hcov with hc | hc
    · exact Or.inl ((hP t).mpr ⟨hx, htr, hc⟩)
    · rw [coveredB_singleton] at hc
      exact Or.inr ⟨of_decide_eq_true hc, hx, htr⟩

lemma build_true_spec {T : Type} (grid : GridDimensions) :
    ∀ (rest pfx : Layout T) (P : List Position), propsChar grid pfx P →
      (∀ it ∈ rest, 0 ≤ it.y) →
      ∃ P', rest.foldlM
          (fun st it => (layoutItemToSectors it).foldlM (markSector grid true) st)
          (buildRef grid pfx, P)
        = .ok (buildRef grid (pfx ++ rest), P') ∧ propsChar grid (pfx ++ rest) P' := by
  intro rest
  induction rest with
  | nil =>
    intro pfx P hP _
    refine ⟨P, ?_, by rw [List.append_nil]; exact hP⟩
    rw [List.append_nil]
    rfl
  | cons it rest ih =>
    intro pfx P hP h
    have hity : 0 ≤ it.y := h it (List.mem_cons_self it rest)
    have h' := fun t ht => h t (List.mem_cons_of_mem _ ht)
    rw [List.foldlM_cons,
      foldlM_markSector_true grid _ _ (sectors_y_nonneg it hity), except_ok_bind]
    have hfst : (markAllSt grid (buildRef grid pfx, P) (layoutItemToSectors it)).1
        = buildRef grid (pfx ++ [it]) := by
      rw [markAllSt_fst]
      exact markAll_sectors_buildRef grid pfx it hity
    have hstep : markAllSt grid (buildRef grid pfx, P) (layoutItemToSectors it)
        = (buildRef grid (pfx ++ [it]),
            (markAllSt grid (buildRef grid pfx, P) (layoutItemToSectors it)).2) := by
      rw [← hfst]
    rw [hstep]
    obtain ⟨P', hP', hchar⟩ := ih (pfx ++ [it]) _
      (markAllSt_sectors_prop grid pfx (buildRef grid pfx) P hP it) h'
    refine ⟨P', ?_, ?_⟩
    · rw [hP', List.append_assoc, List.singleton_append]
    · rw [List.append_assoc, List.singleton_append] at hchar
      exact hchar

/-- `conflictFrom grid pfx rest`: processing `rest` after the items of `pfx`
runs into a repeated tracked cell: some item of `rest` covers a tracked cell
(column below `columns` -- possibly negative, then it is a row-object
property cell -- and row inside `[0, rows)`) already covered by `pfx` or by
an earlier item of `rest`. -/
def conflictFrom {T : Type} (grid : GridDimensions) : Layout T → Layout T → Prop
  | _, [] => False
  | pfx, it :: rest =>
    (∃ s ∈ layoutItemToSectors it, trackedp grid s ∧ coveredB pfx s.x s.y = true) ∨
      conflictFrom grid (pfx ++ [it]) rest

lemma build_false_spec {T : Type} (grid : GridDimensions) :
    ∀ (rest pfx : Layout T) (P : List Position), propsChar grid pfx P →
      (∀ it ∈ rest, 0 ≤ it.y) →
      (conflictFrom grid pfx rest →
        rest.foldlM
            (fun st it => (layoutItemToSectors it).foldlM (markSector grid false) st)
            (buildRef grid pfx, P) = .error .overlapError) ∧
      (¬conflictFrom grid pfx rest →
        ∃ P', rest.foldlM
            (fun st it => (layoutItemToSectors it).foldlM (markSector grid false) st)
            (buildRef grid pfx, P) = .ok (buildRef grid (pfx ++ rest), P') ∧
          propsChar grid (pfx ++ rest) P') := by
  intro rest
  induction rest with
  | nil =>
    intro pfx P hP _
    refine ⟨fun h => False.elim h, fun _ => ⟨P, ?_, by rw [List.append_nil]; exact hP⟩⟩
    rw [List.append_nil]
    rfl
  | cons it rest ih =>
    intro pfx P hP h
    have hity : 0 ≤ it.y := h it (List.mem_cons_self it rest)
    have h' := fun t ht => h t (List.mem_cons_of_mem _ ht)
    rw [List.foldlM_cons]
    have hsect := foldlM_markSector_false grid (layoutItemToSectors it)
      (buildRef grid pfx, P) (sectors_y_nonneg it hity) (sectors_nodup it)
    by_cases hc1 : ∃ s ∈ layoutItemToSectors it, trackedp grid s ∧
        stRead (buildRef grid pfx, P) s = true
    · rw [hsect.1 hc1, except_error_bind]
      have hcf : conflictFrom grid pfx (it :: rest) := by
        refine Or.inl ?_
        rcases hc1 with ⟨s, hs, htr, hcell⟩
        rw [stRead_propsChar grid pfx P hP s htr] at hcell
        exact ⟨s, hs, htr, hcell⟩
      exact ⟨fun _ => rfl, fun hno => absurd hcf hno⟩
    · rw [hsect.2 hc1, except_ok_bind]
      have hfst : (markAllSt grid (buildRef grid pfx, P) (layoutItemToSectors it)).1
          = buildRef grid (pfx ++ [it]) := by
        rw [markAllSt_fst]
        exact markAll_sectors_buildRef grid pfx it hity
      have hstep : markAllSt grid (buildRef grid pfx, P) (layoutItemToSectors it)
          = (buildRef grid (pfx ++ [it]),
              (markAllSt grid (buildRef grid pfx, P) (layoutItemToSectors it)).2) := by
        rw [← hfst]
      rw [hstep]
      have hnotleft : ¬(∃ s ∈ layoutItemToSectors it, trackedp grid s ∧
          coveredB pfx s.x s.y = true) := by
        intro hcc
        apply hc1
        rcases hcc with ⟨s, hs, htr, hcov⟩
        rw [← stRead_propsChar grid pfx P hP s htr] at hcov
        exact ⟨s, hs, htr, hcov⟩
      have ihx := ih (pfx ++ [it]) _
        (markAllSt_sectors_prop grid pfx (buildRef grid pfx) P hP it) h'
      constructor
      · intro hcf
        have hcf' : (∃ s ∈ layoutItemToSectors it, trackedp grid s ∧
            coveredB pfx s.x s.y = true) ∨ conflictFrom grid (pfx ++ [it]) rest := hcf
        rcases hcf' with hl | hr
        · exact absurd hl hnotleft
        · exact ihx.1 hr
      · intro hno
        obtain ⟨P', hP', hchar⟩ := ihx.2 (fun hr => hno (Or.inr hr))
        refine ⟨P', ?_, ?_⟩
        · rw [hP', List.append_assoc, List.singleton_append]
        · rw [List.append_assoc, List.singleton_append] at hchar
          exact hchar

lemma layoutTo2DArray_true_eq {T : Type} (grid : GridDimensions) (layout : Layout T)
    (hy : ∀ it ∈ layout, 0 ≤ it.y) :
    layoutTo2DArray grid layout true = .ok (buildRef grid layout) := by
  unfold layoutTo2DArray layoutTo2DArrayFull
  rw [emptyGrid_eq_buildRef]
  obtain ⟨P', hP', _⟩ := build_true_spec grid layout [] [] (propsChar_nil grid) hy
  rw [List.nil_append] at hP'
  rw [hP']
  rfl

lemma layoutTo2DArray_false_cases {T : Type} (grid : GridDimensions) (layout : Layout T)
    (hy : ∀ it ∈ layout, 0 ≤ it.y) :
    (conflictFrom grid [] layout →
      layoutTo2DArray grid layout false = .error .overlapError) ∧
    (¬conflictFrom grid [] layout →
      layoutTo2DArray grid layout false = .ok (buildRef grid layout)) := by
  unfold layoutTo2DArray layoutTo2DArrayFull
  rw [emptyGrid_eq_buildRef]
  have hspec := build_false_spec grid layout [] [] (propsChar_nil grid) hy
  constructor
  · intro hc
    rw [hspec.1 hc]
    rfl
  · intro hc
    obtain ⟨P', hP', _⟩ := hspec.2 hc
    rw [List.nil_append] at hP'
    rw [hP']
    rfl

lemma layoutTo2DArray_false_error_iff {T : Type} (grid : GridDimensions)
    (layout : Layout T) (hy : ∀ it ∈ layout, 0 ≤ it.y) :
    layoutTo2DArray grid layout false = .error .overlapError ↔
      conflictFrom grid [] layout := by
  constructor
  · intro he
    by_contra hc
    rw [(layoutTo2DArray_false_cases grid layout hy).2 hc] at he
    exact Except.noConfusion he
  · exact (layoutTo2DArray_false_cases grid layout hy).1

lemma conflictFrom_shift {T : Type} (grid : GridDimensions) :
    ∀ (mid pfx rest : Layout T),
      conflictFrom grid (pfx ++ mid) rest → conflictFrom grid pfx (mid ++ rest) := by
  intro mid
  induction mid with
  | nil =>
    intro pfx rest h
    rw [List.append_nil] at h
    rw [List.nil_append]
    exact h
  | cons c mid ih =>
    intro pfx rest h
    show _ ∨ conflictFrom grid (pfx ++ [c]) (mid ++ rest)
    refine Or.inr (ih (pfx ++ [c]) rest ?_)
    rw [List.append_assoc, List.singleton_append]
    exact h

lemma conflictFrom_head {T : Type} (grid : GridDimensions) (pfx : Layout T)
    (b : LayoutItem T) (l3 : Layout T) (a : LayoutItem T) (ha : a ∈ pfx)
    (s : Position) (htr : trackedp grid s) (hsa : s ∈ layoutItemToSectors a)
    (hsb : s ∈ layoutItemToSectors b) :
    conflictFrom grid pfx (b :: l3) := by
  refine Or.inl ⟨s, hsb, htr, ?_⟩
  refine (coveredB_iff pfx s.x s.y).mpr ⟨a, ha, ?_⟩
  exact hsa

/-- Claim C2 (amended): for every grid and layout whose items all have
nonnegative `y`, if two different items (one occurring before the other in
the layout sequence) cover a common cell inside `[0, columns) × [0, rows)`,
then building the occupancy grid with `allowOverlay = false` throws the
OverlapError, and building it with `allowOverlay = true` returns normally
with exactly the in-bounds coverage matrix -- repeated marks are no-ops:
marking a cell any number of times yields the same matrix as covering it
once. (Without the nonnegative-`y` restriction the construction can instead
throw a TypeError, see the counterexample.) -/
theorem overlap_detection {T : Type} (grid : GridDimensions) (l1 l2 l3 : Layout T)
    (a b : LayoutItem T) (s : Position)
    (hy : ∀ it ∈ l1 ++ a :: l2 ++ b :: l3, 0 ≤ it.y)
    (hin : inBp grid s)
    (hsa : s ∈ layoutItemToSectors a) (hsb : s ∈ layoutItemToSectors b) :
    layoutTo2DArray grid (l1 ++ a :: l2 ++ b :: l3) false = .error .overlapError ∧
      layoutTo2DArray grid (l1 ++ a :: l2 ++ b :: l3) true =
        .ok (buildRef grid (l1 ++ a :: l2 ++ b :: l3)) := by
  have hconf : conflictFrom grid [] (l1 ++ a :: l2 ++ b :: l3) := by
    have h0 : conflictFrom grid ([] ++ (l1 ++ a :: l2)) (b :: l3) :=
      conflictFrom_head grid _ b l3 a (by simp) s (inBp_tracked grid s hin) hsa hsb
    have h1 := conflictFrom_shift grid (l1 ++ a :: l2) [] (b :: l3) h0
    exact h1
  exact ⟨(layoutTo2DArray_false_cases grid _ hy).1 hconf,
    layoutTo2DArray_true_eq grid _ hy⟩

/-- Witness for C2 at a concrete input: two `1 × 1` items both at the origin
of a `1 × 1` grid. -/
theorem overlap_detection_witness :
    layoutTo2DArray (GridDimensions.mk 10 1 1 1 1)
        (([] : Layout Unit) ++ LayoutItem.mk 0 0 1 1 () ::
          ([] : Layout Unit) ++ LayoutItem.mk 0 0 1 1 () :: ([] : Layout Unit))
        false = .error .overlapError ∧
      layoutTo2DArray (GridDimensions.mk 10 1 1 1 1)
        (([] : Layout Unit) ++ LayoutItem.mk 0 0 1 1 () ::
          ([] : Layout Unit) ++ LayoutItem.mk 0 0 1 1 () :: ([] : Layout Unit))
        true = .ok (buildRef (GridDimensions.mk 10 1 1 1 1)
          (([] : Layout Unit) ++ LayoutItem.mk 0 0 1 1 () ::
            ([] : Layout Unit) ++ LayoutItem.mk 0 0 1 1 () :: ([] : Layout Unit))) :=
  overlap_detection (GridDimensions.mk 10 1 1 1 1) [] [] []
    (LayoutItem.mk 0 0 1 1 ()) (LayoutItem.mk 0 0 1 1 ()) (Position.mk 0 0)
    (by decide) (by decide) (by decide) (by decide)

/-- Counterexample to C2 as stated: these two items share the in-bounds cell
`(0, 0)` of a `1 × 1` grid, yet building the occupancy grid throws a
TypeError (not the OverlapError with `allowOverlay = false`, and not no-error
with `allowOverlay = true`), because the first item also covers the
negative-`y` cell `(0, -1)` and `arr[-1][0]` faults first. -/
theorem overlap_detection_counterexample :
    layoutTo2DArray (GridDimensions.mk 10 1 1 1 1)
        [LayoutItem.mk (T := Unit) 0 (-1) 1 2 (), LayoutItem.mk (T := Unit) 0 0 1 1 ()]
        false = .error .typeError ∧
      layoutTo2DArray (GridDimensions.mk 10 1 1 1 1)
        [LayoutItem.mk (T := Unit) 0 (-1) 1 2 (), LayoutItem.mk (T := Unit) 0 0 1 1 ()]
        true = .error .typeError :=
  ⟨rfl, rfl⟩

/-- Claim C5 (amended): for every grid and every layout whose items have
nonnegative `y` (their `x` may be negative, and coordinates may exceed the
grid extent), occupancy construction silently skips every covered cell with
column `≥ columns` or row `≥ rows` -- such cells raise no error and never
affect the result -- and the matrix it returns is always exactly the
in-bounds coverage `buildRef`, unaffected by any out-of-bounds cell.
Covered cells with negative column (and row inside the extent) never affect
the returned matrix either, but they are not fully ignored: the write stores
an own property on the row object, and with `allowOverlay = false` the
construction throws the OverlapError precisely when some tracked cell
(column `< columns`, possibly negative; row inside `[0, rows)`) is covered
twice -- so a repeated negative-column cell throws exactly like a repeated
in-bounds cell. (A covered cell with negative row instead makes the
construction throw a TypeError, unless the guard already skipped it for
column `≥ columns`; see the counterexample.) -/
theorem oob_cells_silently_ignored {T : Type} (grid : GridDimensions)
    (layout : Layout T) (hy : ∀ it ∈ layout, 0 ≤ it.y) :
    layoutTo2DArray grid layout true = .ok (buildRef grid layout) ∧
      (layoutTo2DArray grid layout false = .ok (buildRef grid layout) ∨
        layoutTo2DArray grid layout false = .error .overlapError) ∧
      (layoutTo2DArray grid layout false = .error .overlapError ↔
        conflictFrom grid [] layout) := by
  refine ⟨layoutTo2DArray_true_eq grid layout hy, ?_,
    layoutTo2DArray_false_error_iff grid layout hy⟩
  by_cases hc : conflictFrom grid [] layout
  · exact Or.inr ((layoutTo2DArray_false_cases grid layout hy).1 hc)
  · exact Or.inl ((layoutTo2DArray_false_cases grid layout hy).2 hc)

/-- Witness for C5 at a concrete input: an item overhanging the right edge of
a `1 × 1` grid. -/
theorem oob_cells_silently_ignored_witness :
    layoutTo2DArray (GridDimensions.mk 10 1 1 1 1)
        [LayoutItem.mk (T := Unit) 0 0 2 1 ()] true =
      .ok (buildRef (GridDimensions.mk 10 1 1 1 1)
        [LayoutItem.mk (T := Unit) 0 0 2 1 ()]) ∧
      (layoutTo2DArray (GridDimensions.mk 10 1 1 1 1)
          [LayoutItem.mk (T := Unit) 0 0 2 1 ()] false =
        .ok (buildRef (GridDimensions.mk 10 1 1 1 1)
          [LayoutItem.mk (T := Unit) 0 0 2 1 ()]) ∨
        layoutTo2DArray (GridDimensions.mk 10 1 1 1 1)
          [LayoutItem.mk (T := Unit) 0 0 2 1 ()] false = .error .overlapError) ∧
      (layoutTo2DArray (GridDimensions.mk 10 1 1 1 1)
          [LayoutItem.mk (T := Unit) 0 0 2 1 ()] false = .error .overlapError ↔
        conflictFrom (GridDimensions.mk 10 1 1 1 1) []
          [LayoutItem.mk (T := Unit) 0 0 2 1 ()]) :=
  oob_cells_silently_ignored (GridDimensions.mk 10 1 1 1 1)
    [LayoutItem.mk (T := Unit) 0 0 2 1 ()] (by decide)

/-- Counterexample to C5 as stated: out-of-bounds cells are not uniformly
silently ignored. First, an item whose footprint contains the cell `(0, -1)`
makes occupancy construction throw a TypeError (with either `allowOverlay`
value) instead of ignoring the cell and returning a matrix. Second, two items
sharing only the out-of-bounds cell `(-1, 0)` make construction with
`allowOverlay = false` throw the OverlapError: the first write creates the
own property `-1` on the row object, which the second read observes. -/
theorem oob_cells_counterexample :
    layoutTo2DArray (GridDimensions.mk 10 1 1 1 1)
        [LayoutItem.mk (T := Unit) 0 (-1) 1 1 ()] true = .error .typeError ∧
      layoutTo2DArray (GridDimensions.mk 10 1 1 1 1)
        [LayoutItem.mk (T := Unit) 0 (-1) 1 1 ()] false = .error .typeError ∧
      layoutTo2DArray (GridDimensions.mk 10 1 1 1 1)
        [LayoutItem.mk (T := Unit) (-1) 0 1 1 (),
          LayoutItem.mk (T := Unit) (-1) 0 1 1 ()] false = .error .overlapError :=
  ⟨rfl, rfl, rfl⟩

/-- Claim C10: with all coordinates nonnegative, every array access is in
bounds or guarded: `layoutTo2DArray` either returns a matrix or throws the
OverlapError of the disallowed-overlap branch (never a TypeError), and
`willItemOverlay` always returns a boolean (never throws). -/
theorem nonneg_totality {T U : Type} (grid : GridDimensions) (layout : Layout T)
    (ao : Bool) (arr : Grid2DArray) (item : LayoutItem U)
    (hlay : ∀ it ∈ layout, 0 ≤ it.x ∧ 0 ≤ it.y)
    (hitem : 0 ≤ item.x ∧ 0 ≤ item.y) :
    ((∃ res, layoutTo2DArray grid layout ao = .ok res) ∨
      (ao = false ∧ layoutTo2DArray grid layout ao = .error .overlapError)) ∧
    (∃ b, willItemOverlay arr item = .ok b) := by
  have hy : ∀ it ∈ layout, 0 ≤ it.y := fun it h => (hlay it h).2
  constructor
  · cases ao
    · by_cases hc : conflictFrom grid [] layout
      · exact Or.inr ⟨rfl, (layoutTo2DArray_false_cases grid layout hy).1 hc⟩
      · exact Or.inl ⟨_, (layoutTo2DArray_false_cases grid layout hy).2 hc⟩
    · exact Or.inl ⟨_, layoutTo2DArray_true_eq grid layout hy⟩
  · exact ⟨_, willItemOverlay_eq_overlayB arr item hitem.2⟩

/-- Witness for C10 at a concrete input. -/
theorem nonneg_totality_witness :
    ((∃ res, layoutTo2DArray (GridDimensions.mk 10 1 1 1 1)
        [LayoutItem.mk (T := Unit) 0 0 1 1 ()] false = .ok res) ∨
      (false = false ∧ layoutTo2DArray (GridDimensions.mk 10 1 1 1 1)
        [LayoutItem.mk (T := Unit) 0 0 1 1 ()] false = .error .overlapError)) ∧
    (∃ b, willItemOverlay [[false]] (LayoutItem.mk (T := Unit) 0 0 1 1 ()) = .ok b) :=
  nonneg_totality (GridDimensions.mk 10 1 1 1 1)
    [LayoutItem.mk (T := Unit) 0 0 1 1 ()] false [[false]]
    (LayoutItem.mk (T := Unit) 0 0 1 1 ()) (by decide) (by decide)

/-! ### The row-major scan of `findPositionForItemInGrid` -/

/-- The acceptance test of the scan at origin `(j, i)`, ignoring the
fast-reject on the origin cell: no overlay and no overflow. -/
def acceptAt (grid : GridDimensions) (arr : Grid2DArray) (item : LayoutItemSize)
    (j i : ℕ) : Prop :=
  overlayB arr (LayoutItem.mk (T := Unit) (j : ℤ) (i : ℤ) item.width item.height ()) = false ∧
    (j : ℤ) + item.width ≤ (grid.columns : ℤ) ∧
    (i : ℤ) + item.height ≤ (grid.rows : ℤ)

lemma scanRowGo_cons_true (grid : GridDimensions) (arr : Grid2DArray)
    (item : LayoutItemSize) (i j : ℕ) (rest : List Bool) :
    scanRowGo grid arr item i j (true :: rest) =
      scanRowGo grid arr item i (j + 1) rest := by
  rfl

lemma scanRowGo_cons_false (grid : GridDimensions) (arr : Grid2DArray)
    (item : LayoutItemSize) (i j : ℕ) (rest : List Bool) :
    scanRowGo grid arr item i j (false :: rest) =
      if overlayB arr (LayoutItem.mk (T := Unit) (j : ℤ) (i : ℤ) item.width item.height ()) ||
          (decide ((grid.columns : ℤ) < (j : ℤ) + item.width) ||
            decide ((grid.rows : ℤ) < (i : ℤ) + item.height)) then
        scanRowGo grid arr item i (j + 1) rest
      else .ok (some (Position.mk (j : ℤ) (i : ℤ))) := by
  show (match willItemOverlay arr
      (LayoutItem.mk (T := Unit) (j : ℤ) (i : ℤ) item.width item.height ()) with
    | Except.error e => (Except.error e : Except JsErr (Option Position))
    | Except.ok overlay =>
      if overlay || (decide ((grid.columns : ℤ) < (j : ℤ) + item.width) ||
          decide ((grid.rows : ℤ) < (i : ℤ) + item.height)) then
        scanRowGo grid arr item i (j + 1) rest
      else Except.ok (some (Position.mk (j : ℤ) (i : ℤ)))) = _
  rw [willItemOverlay_eq_overlayB arr _ (by exact Int.natCast_nonneg i)]

lemma scanRowGo_spec (grid : GridDimensions) (arr : Grid2DArray)
    (item : LayoutItemSize) (i : ℕ) :
    ∀ (cells : List Bool) (j : ℕ),
      (scanRowGo grid arr item i j cells = .ok none →
        ∀ t, ∀ _ : t < cells.length,
          ¬(cells[t] = false ∧ acceptAt grid arr item (j + t) i)) ∧
      (∀ p, scanRowGo grid arr item i j cells = .ok (some p) →
        ∃ t, ∃ _ : t < cells.length, p = Position.mk ((j + t : ℕ) : ℤ) (i : ℤ) ∧
          cells[t] = false ∧ acceptAt grid arr item (j + t) i ∧
          ∀ u, u < t → ∀ _ : u < cells.length,
            ¬(cells[u] = false ∧ acceptAt grid arr item (j + u) i)) := by
  intro cells
  induction cells with
  | nil =>
    intro j
    constructor
    · intro _ t ht
      exact absurd ht (by simp)
    · intro p hp
      exact absurd hp (by simp [scanRowGo])
  | cons c rest ih =>
    intro j
    cases c
    · -- cell is free: the overlay/overflow test decides
      rw [scanRowGo_cons_false]
      by_cases hb : (overlayB arr
          (LayoutItem.mk (T := Unit) (j : ℤ) (i : ℤ) item.width item.height ()) ||
          (decide ((grid.columns : ℤ) < (j : ℤ) + item.width) ||
            decide ((grid.rows : ℤ) < (i : ℤ) + item.height))) = true
      · rw [if_pos hb]
        have hrej : ¬acceptAt grid arr item (j + 0) i := by
          intro hacc
          obtain ⟨h1, h2, h3⟩ := hacc
          simp only [Nat.add_zero] at h1 h2
          rcases Bool.or_eq_true_iff.mp hb with ho | hor
          · rw [h1] at ho
            exact Bool.false_ne_true ho
          · rcases Bool.or_eq_true_iff.mp hor with hc | hc <;>
              (rw [decide_eq_true_eq] at hc; omega)
        constructor
        · intro h t ht
          cases t with
          | zero => intro hc; exact hrej hc.2
          | succ t' =>
            have := (ih (j + 1)).1 h t' (by simpa using ht)
            rw [List.getElem_cons_succ]
            have harith : j + 1 + t' = j + (t' + 1) := by omega
            rw [harith] at this
            exact this
        · intro p hp
          obtain ⟨t, ht, hp', hcell, hacc, hmin⟩ := (ih (j + 1)).2 p hp
          have harith : j + 1 + t = j + (t + 1) := by omega
          refine ⟨t + 1, by simpa using Nat.succ_lt_succ ht, ?_, ?_, ?_, ?_⟩
          · rw [hp', harith]
          · rw [List.getElem_cons_succ]
            exact hcell
          · rw [← harith]
            exact hacc
          · intro u hu hu'
            cases u with
            | zero => intro hc; exact hrej hc.2
            | succ u' =>
              rw [List.getElem_cons_succ]
              have := hmin u' (by omega) (by simpa using hu')
              have harith2 : j + 1 + u' = j + (u' + 1) := by omega
              rw [harith2] at this
              exact this
      · rw [if_neg hb]
        have hok : acceptAt grid arr item (j + 0) i := by
          rw [Bool.not_eq_true, Bool.or_eq_false_iff, Bool.or_eq_false_iff] at hb
          obtain ⟨h1, h2, h3⟩ := hb
          rw [decide_eq_false_iff_not] at h2 h3
          exact ⟨h1, by omega, by omega⟩
        constructor
        · intro h
          exact absurd h (by simp)
        · intro p hp
          rw [Except.ok.injEq, Option.some.injEq] at hp
          refine ⟨0, by simp, ?_, by rw [List.getElem_cons_zero], hok, ?_⟩
          · rw [← hp, Nat.add_zero]
          · intro u hu _
            exact absurd hu (by omega)
    · -- occupied origin cell: fast reject
      rw [scanRowGo_cons_true]
      constructor
      · intro h t ht
        cases t with
        | zero =>
          rw [List.getElem_cons_zero]
          intro hc
          exact Bool.noConfusion hc.1
        | succ t' =>
          rw [List.getElem_cons_succ]
          have := (ih (j + 1)).1 h t' (by simpa using ht)
          have harith : j + 1 + t' = j + (t' + 1) := by omega
          rw [harith] at this
          exact this
      · intro p hp
        obtain ⟨t, ht, hp', hcell, hacc, hmin⟩ := (ih (j + 1)).2 p hp
        have harith : j + 1 + t = j + (t + 1) := by omega
        refine ⟨t + 1, by simpa using Nat.succ_lt_succ ht, ?_, ?_, ?_, ?_⟩
        · rw [hp', harith]
        · rw [List.getElem_cons_succ]
          exact hcell
        · rw [← harith]
          exact hacc
        · intro u hu hu'
          cases u with
          | zero =>
            rw [List.getElem_cons_zero]
            intro hc
            exact Bool.noConfusion hc.1
          | succ u' =>
            rw [List.getElem_cons_succ]
            have := hmin u' (by omega) (by simpa using hu')
            have harith2 : j + 1 + u' = j + (u' + 1) := by omega
            rw [harith2] at this
            exact this

lemma scanRowsGo_cons (grid : GridDimensions) (arr : Grid2DArray)
    (item : LayoutItemSize) (i : ℕ) (row : List Bool) (rest : List (List Bool)) :
    scanRowsGo grid arr item i (row :: rest) =
      (match scanRowGo grid arr item i 0 row with
        | Except.error e => (Except.error e : Except JsErr (Option Position))
        | Except.ok (some p) => Except.ok (some p)
        | Except.ok none => scanRowsGo grid arr item (i + 1) rest) := rfl

lemma scanRowsGo_spec (grid : GridDimensions) (arr : Grid2DArray)
    (item : LayoutItemSize) :
    ∀ (rowsL : List (List Bool)) (i : ℕ),
      (∀ p, scanRowsGo grid arr item i rowsL = .ok (some p) →
        ∃ r, ∃ _ : r < rowsL.length,
          scanRowGo grid arr item (i + r) 0 rowsL[r] = .ok (some p) ∧
          ∀ r', r' < r → ∀ _ : r' < rowsL.length,
            scanRowGo grid arr item (i + r') 0 rowsL[r'] = .ok none) ∧
      (scanRowsGo grid arr item i rowsL = .ok none →
        ∀ r, ∀ _ : r < rowsL.length,
          scanRowGo grid arr item (i + r) 0 rowsL[r] = .ok none) := by
  intro rowsL
  induction rowsL with
  | nil =>
    intro i
    constructor
    · intro p hp
      exact absurd hp (by simp [scanRowsGo])
    · intro _ r hr
      exact absurd hr (by simp)
  | cons row rest ih =>
    intro i
    rw [scanRowsGo_cons]
    cases hrow : scanRowGo grid arr item i 0 row with
    | error e =>
      constructor
      · intro p hp
        exact absurd hp (by simp)
      · intro hp
        exact absurd hp (by simp)
    | ok ov =>
      cases ov with
      | some p0 =>
        constructor
        · intro p hp
          rw [Except.ok.injEq, Option.some.injEq] at hp
          refine ⟨0, by simp, ?_, ?_⟩
          · simp only [Nat.add_zero, List.getElem_cons_zero]
            rw [hrow, hp]
          · intro r' hr' _
            exact absurd hr' (by omega)
        · intro hp
          exact absurd hp (by simp)
      | none =>
        constructor
        · intro p hp
          obtain ⟨r, hr, hfind, hprev⟩ := (ih (i + 1)).1 p hp
          refine ⟨r + 1, by simpa using Nat.succ_lt_succ hr, ?_, ?_⟩
          · rw [List.getElem_cons_succ, show i + (r + 1) = i + 1 + r from by omega]
            exact hfind
          · intro r' hr' hr'len
            cases r' with
            | zero =>
              simp only [Nat.add_zero, List.getElem_cons_zero]
              exact hrow
            | succ r'' =>
              rw [List.getElem_cons_succ,
                show i + (r'' + 1) = i + 1 + r'' from by omega]
              exact hprev r'' (by omega) (by simpa using hr'len)
        · intro hp r hr
          cases r with
          | zero =>
            simp only [Nat.add_zero, List.getElem_cons_zero]
            exact hrow
          | succ r' =>
            rw [List.getElem_cons_succ,
              show i + (r' + 1) = i + 1 + r' from by omega]
            exact (ih (i + 1)).2 hp r' (by simpa using hr)

lemma findPosition_cases {T : Type} (grid : GridDimensions) (layout : Layout T)
    (item : LayoutItemSize) (res : Option Position)
    (h : findPositionForItemInGrid grid layout item = .ok res) :
    ∃ arr, layoutTo2DArray grid layout false = .ok arr ∧
      scanRowsGo grid arr item 0 arr = .ok res := by
  unfold findPositionForItemInGrid at h
  cases hb : layoutTo2DArray grid layout false with
  | error e =>
    rw [hb] at h
    exact absurd h (by simp)
  | ok arr =>
    rw [hb] at h
    exact ⟨arr, rfl, h⟩

lemma getElem_eq_cellAt (arr : Grid2DArray) (r t : ℕ) (hr : r < arr.length)
    (ht : t < arr[r].length) :
    arr[r][t] = cellAt arr (Position.mk (t : ℤ) (r : ℤ)) := by
  unfold cellAt
  simp only [Int.toNat_natCast]
  rw [getD_eq_getElem _ r _ hr]
  rw [getD_eq_getElem _ t _ ht]

lemma cellAt_toNat_eq (arr : Grid2DArray) (q : Position) :
    cellAt arr (Position.mk ((q.x.toNat : ℕ) : ℤ) ((q.y.toNat : ℕ) : ℤ)) =
      cellAt arr q := by
  unfold cellAt
  simp only [Int.toNat_natCast]

lemma accept_sectors (grid : GridDimensions) (arr : Grid2DArray)
    (item : LayoutItemSize) (hd : dimsOk grid arr) (j i : ℕ)
    (hacc : acceptAt grid arr item j i) :
    ∀ s ∈ layoutItemToSectors
        (LayoutItem.mk (T := Unit) (j : ℤ) (i : ℤ) item.width item.height ()),
      (0 ≤ s.x ∧ s.x < (grid.columns : ℤ) ∧ 0 ≤ s.y ∧ s.y < (grid.rows : ℤ)) ∧
        cellAt arr s = false := by
  intro s hs
  obtain ⟨ho, hcw, hch⟩ := hacc
  have hm := (mem_sectors _ s).mp hs
  simp only at hm
  have hb : 0 ≤ s.x ∧ s.x < (grid.columns : ℤ) ∧ 0 ≤ s.y ∧ s.y < (grid.rows : ℤ) := by
    omega
  refine ⟨hb, ?_⟩
  have hnot : ∀ t ∈ layoutItemToSectors
      (LayoutItem.mk (T := Unit) (j : ℤ) (i : ℤ) item.width item.height ()),
      ¬ readCell arr t = true := by
    rw [← List.any_eq_false]
    exact ho
  have hrc : readCell arr s = false := by
    cases hv : readCell arr s
    · rfl
    · exact absurd hv (hnot s hs)
  rw [← readCell_eq_cellAt arr s hb.2.2.1 (by rw [hd.1]; exact_mod_cast hb.2.2.2)
    hb.1 ?_]
  · exact hrc
  · rw [dimsOk_getD_length grid arr hd s.y.toNat (by omega)]
    omega

lemma accept_valid (grid : GridDimensions) (arr : Grid2DArray)
    (item : LayoutItemSize) (hd : dimsOk grid arr) (j i : ℕ)
    (hacc : acceptAt grid arr item j i) :
    validPlacement grid arr item (Position.mk (j : ℤ) (i : ℤ)) := by
  refine ⟨Int.natCast_nonneg j, Int.natCast_nonneg i, hacc.2.1, hacc.2.2, ?_⟩
  exact fun s hs => (accept_sectors grid arr item hd j i hacc s hs).2

lemma valid_accept (grid : GridDimensions) (arr : Grid2DArray)
    (item : LayoutItemSize) (hd : dimsOk grid arr)
    (hw : 1 ≤ item.width) (hh : 1 ≤ item.height)
    (q : Position) (hv : validPlacement grid arr item q) :
    cellAt arr q = false ∧ acceptAt grid arr item q.x.toNat q.y.toNat := by
  obtain ⟨hx0, hy0, hxw, hyh, hfree⟩ := hv
  have horig : q ∈ layoutItemToSectors
      (LayoutItem.mk (T := Unit) q.x q.y item.width item.height ()) := by
    refine (mem_sectors _ q).mpr ?_
    exact ⟨le_refl q.x, (show q.x < q.x + item.width from by omega),
      le_refl q.y, (show q.y < q.y + item.height from by omega)⟩
  refine ⟨hfree q horig, ?_⟩
  unfold acceptAt
  rw [Int.toNat_of_nonneg hx0, Int.toNat_of_nonneg hy0]
  refine ⟨?_, hxw, hyh⟩
  unfold overlayB
  rw [List.any_eq_false]
  intro s hs
  have hm := (mem_sectors _ s).mp hs
  simp only at hm
  rw [readCell_eq_cellAt arr s (by omega)
    (by rw [hd.1]; exact_mod_cast (show s.y < (grid.rows : ℤ) from by omega))
    (by omega)
    (by rw [dimsOk_getD_length grid arr hd s.y.toNat (by omega)]; omega)]
  rw [hfree s hs]
  exact Bool.false_ne_true

/-- Claim C1: whenever `findPositionForItemInGrid` returns a position `p`
(rather than not-found or an error), `p` is nonnegative, the item's footprint
placed at `p` lies entirely within `[0, columns) × [0, rows)`, and no cell of
that footprint is occupied in the occupancy grid built from the layout. -/
theorem placement_soundness {T : Type} (grid : GridDimensions) (layout : Layout T)
    (item : LayoutItemSize) (p : Position)
    (h : findPositionForItemInGrid grid layout item = .ok (some p)) :
    0 ≤ p.x ∧ 0 ≤ p.y ∧ p.x + item.width ≤ (grid.columns : ℤ) ∧
      p.y + item.height ≤ (grid.rows : ℤ) ∧
      ∃ arr, layoutTo2DArray grid layout false = .ok arr ∧
        ∀ s ∈ layoutItemToSectors
            (LayoutItem.mk (T := Unit) p.x p.y item.width item.height ()),
          (0 ≤ s.x ∧ s.x < (grid.columns : ℤ) ∧ 0 ≤ s.y ∧ s.y < (grid.rows : ℤ)) ∧
            cellAt arr s = false := by
  obtain ⟨arr, harr, hscan⟩ := findPosition_cases grid layout item (some p) h
  have hd := layoutTo2DArray_dims grid layout false arr harr
  obtain ⟨r, hr, hrow, hprev⟩ := (scanRowsGo_spec grid arr item arr 0).1 p hscan
  simp only [Nat.zero_add] at hrow
  obtain ⟨t, ht, hp, hcell, hacc, hmin⟩ :=
    (scanRowGo_spec grid arr item r arr[r] 0).2 p hrow
  simp only [Nat.zero_add] at hp hacc
  subst hp
  exact ⟨Int.natCast_nonneg t, Int.natCast_nonneg r, hacc.2.1, hacc.2.2,
    arr, harr, accept_sectors grid arr item hd t r hacc⟩

/-- Witness for C1 at a concrete input: the grid `{columns: 3, rows: 3}` with
a `2 × 2` item at the origin and a `1 × 1` query, which places at `(2, 0)`. -/
theorem placement_soundness_witness :
    0 ≤ (Position.mk 2 0).x ∧ 0 ≤ (Position.mk 2 0).y ∧
      (Position.mk 2 0).x + (LayoutItemSize.mk 1 1).width ≤
        ((GridDimensions.mk 10 3 3 3 3).columns : ℤ) ∧
      (Position.mk 2 0).y + (LayoutItemSize.mk 1 1).height ≤
        ((GridDimensions.mk 10 3 3 3 3).rows : ℤ) ∧
      ∃ arr, layoutTo2DArray (GridDimensions.mk 10 3 3 3 3)
          [LayoutItem.mk (T := Unit) 0 0 2 2 ()] false = .ok arr ∧
        ∀ s ∈ layoutItemToSectors
            (LayoutItem.mk (T := Unit) (Position.mk 2 0).x (Position.mk 2 0).y
              (LayoutItemSize.mk 1 1).width (LayoutItemSize.mk 1 1).height ()),
          (0 ≤ s.x ∧ s.x < (((GridDimensions.mk 10 3 3 3 3)).columns : ℤ) ∧
            0 ≤ s.y ∧ s.y < (((GridDimensions.mk 10 3 3 3 3)).rows : ℤ)) ∧
            cellAt arr s = false :=
  placement_soundness (GridDimensions.mk 10 3 3 3 3)
    [LayoutItem.mk (T := Unit) 0 0 2 2 ()] (LayoutItemSize.mk 1 1)
    (Position.mk 2 0) (by rfl)

/-- Claim C4: `findPositionForItemInGrid` scans origins row-major (rows
ascending, then columns ascending) and returns the first in-bounds,
collision-free origin: any returned position is itself a valid placement and
is lexicographically minimal (smallest row, then smallest column) among all
valid placements; and if it reports not-found, no valid placement exists.
Item sizes are at least `1 × 1`, as in the data model. -/
theorem row_major_first_fit {T : Type} (grid : GridDimensions) (layout : Layout T)
    (item : LayoutItemSize) (hw : 1 ≤ item.width) (hh : 1 ≤ item.height)
    (arr : Grid2DArray) (harr : layoutTo2DArray grid layout false = .ok arr) :
    (∀ p, findPositionForItemInGrid grid layout item = .ok (some p) →
      validPlacement grid arr item p ∧
        ∀ q, validPlacement grid arr item q →
          p.y < q.y ∨ (p.y = q.y ∧ p.x ≤ q.x)) ∧
    (findPositionForItemInGrid grid layout item = .ok none →
      ∀ q, ¬validPlacement grid arr item q) := by
  have hd := layoutTo2DArray_dims grid layout false arr harr
  have hrowlen : ∀ (r : ℕ) (hr : r < arr.length), arr[r].length = grid.columns :=
    fun r hr => hd.2 _ (List.getElem_mem hr)
  have hqbounds : ∀ q, validPlacement grid arr item q →
      q.y.toNat < arr.length ∧
        ∀ hq : q.y.toNat < arr.length, q.x.toNat < arr[q.y.toNat].length := by
    intro q hq
    obtain ⟨hx0, hy0, hxw, hyh, _⟩ := hq
    have h1 : q.y.toNat < arr.length := by rw [hd.1]; omega
    exact ⟨h1, fun hq' => by rw [hrowlen _ hq']; omega⟩
  have hqcell : ∀ q, validPlacement grid arr item q →
      ∀ (h1 : q.y.toNat < arr.length) (h2 : q.x.toNat < arr[q.y.toNat].length),
        arr[q.y.toNat][q.x.toNat] = false := by
    intro q hq h1 h2
    rw [getElem_eq_cellAt arr q.y.toNat q.x.toNat h1 h2, cellAt_toNat_eq]
    exact (valid_accept grid arr item hd hw hh q hq).1
  constructor
  · intro p hfp
    obtain ⟨arr', harr', hscan⟩ := findPosition_cases grid layout item (some p) hfp
    rw [harr] at harr'
    rw [Except.ok.injEq] at harr'
    subst harr'
    obtain ⟨r, hr, hrow, hprev⟩ := (scanRowsGo_spec grid arr item arr 0).1 p hscan
    simp only [Nat.zero_add] at hrow hprev
    obtain ⟨t, ht, hp, hcell, hacc, hmin⟩ :=
      (scanRowGo_spec grid arr item r arr[r] 0).2 p hrow
    simp only [Nat.zero_add] at hp hacc hmin
    subst hp
    refine ⟨accept_valid grid arr item hd t r hacc, ?_⟩
    intro q hq
    obtain ⟨hqy, hqx⟩ := hqbounds q hq
    have hqacc := (valid_accept grid arr item hd hw hh q hq).2
    rcases Nat.lt_trichotomy q.y.toNat r with hlt | heq | hgt
    · exfalso
      have hnone := hprev q.y.toNat hlt hqy
      have hrej := (scanRowGo_spec grid arr item q.y.toNat arr[q.y.toNat] 0).1
        hnone q.x.toNat (hqx hqy)
      simp only [Nat.zero_add] at hrej
      exact hrej ⟨hqcell q hq hqy (hqx hqy), hqacc⟩
    · subst heq
      rcases Nat.lt_or_ge q.x.toNat t with hxlt | hxge
      · exfalso
        exact hmin q.x.toNat hxlt (hqx hqy) ⟨hqcell q hq hqy (hqx hqy), hqacc⟩
      · right
        obtain ⟨hx0, hy0, _, _, _⟩ := hq
        constructor
        · show ((q.y.toNat : ℕ) : ℤ) = q.y
          omega
        · show ((t : ℕ) : ℤ) ≤ q.x
          omega
    · left
      obtain ⟨hx0, hy0, _, _, _⟩ := hq
      show ((r : ℕ) : ℤ) < q.y
      omega
  · intro hfp q hq
    obtain ⟨arr', harr', hscan⟩ := findPosition_cases grid layout item none hfp
    rw [harr] at harr'
    rw [Except.ok.injEq] at harr'
    subst harr'
    obtain ⟨hqy, hqx⟩ := hqbounds q hq
    have hnone := (scanRowsGo_spec grid arr item arr 0).2 hscan q.y.toNat hqy
    simp only [Nat.zero_add] at hnone
    have hrej := (scanRowGo_spec grid arr item q.y.toNat arr[q.y.toNat] 0).1
      hnone q.x.toNat (hqx hqy)
    simp only [Nat.zero_add] at hrej
    exact hrej ⟨hqcell q hq hqy (hqx hqy),
      (valid_accept grid arr item hd hw hh q hq).2⟩

/-- Witness for C4 at the spec's concrete scenario: grid
`{columns: 3, rows: 3, boxSize: 10}`, layout `[{x:0, y:0, width:2, height:2}]`,
searching for a `1 × 1` item returns `{x: 2, y: 0}`. -/
theorem row_major_first_fit_witness :
    findPositionForItemInGrid (GridDimensions.mk 10 3 3 3 3)
        [LayoutItem.mk (T := Unit) 0 0 2 2 ()] (LayoutItemSize.mk 1 1) =
      .ok (some (Position.mk 2 0)) ∧
    ((∀ p, findPositionForItemInGrid (GridDimensions.mk 10 3 3 3 3)
          [LayoutItem.mk (T := Unit) 0 0 2 2 ()] (LayoutItemSize.mk 1 1) =
        .ok (some p) →
        validPlacement (GridDimensions.mk 10 3 3 3 3)
            [[true, true, false], [true, true, false], [false, false, false]]
            (LayoutItemSize.mk 1 1) p ∧
          ∀ q, validPlacement (GridDimensions.mk 10 3 3 3 3)
              [[true, true, false], [true, true, false], [false, false, false]]
              (LayoutItemSize.mk 1 1) q →
            p.y < q.y ∨ (p.y = q.y ∧ p.x ≤ q.x)) ∧
      (findPositionForItemInGrid (GridDimensions.mk 10 3 3 3 3)
          [LayoutItem.mk (T := Unit) 0 0 2 2 ()] (LayoutItemSize.mk 1 1) =
        .ok none →
        ∀ q, ¬validPlacement (GridDimensions.mk 10 3 3 3 3)
            [[true, true, false], [true, true, false], [false, false, false]]
            (LayoutItemSize.mk 1 1) q)) :=
  ⟨rfl, row_major_first_fit (GridDimensions.mk 10 3 3 3 3)
    [LayoutItem.mk (T := Unit) 0 0 2 2 ()] (LayoutItemSize.mk 1 1)
    (by decide) (by decide)
    [[true, true, false], [true, true, false], [false, false, false]] (by rfl)⟩

/-! ### Overflow repair -/

lemma tagItems_map_snd {T : Type} (layout : Layout T) :
    (tagItems layout).map Prod.snd = layout := by
  unfold tagItems
  rw [List.map_map]
  have hc : (Prod.snd ∘ fun p : ℕ × LayoutItem T => ((some p.1 : Option ℕ), p.2)) =
      Prod.snd := rfl
  rw [hc, List.enum_map_snd]

lemma fixGo_cons {T : Type} (grid : GridDimensions)
    (work : List (Option ℕ × LayoutItem T)) (k : ℕ) (it : LayoutItem T)
    (rest : List (ℕ × LayoutItem T)) :
    fixGo grid work ((k, it) :: rest) =
      if overflows grid it = false then fixGo grid work rest
      else
        match findPositionForItemInGrid grid
            ((work.filter (fun p => decide (p.1 ≠ some k))).map Prod.snd)
            (itemSizeOf it) with
        | Except.error e => Except.error e
        | Except.ok none =>
          fixGo grid (work.filter (fun p => decide (p.1 ≠ some k))) rest
        | Except.ok (some pos) =>
          fixGo grid
            (work.filter (fun p => decide (p.1 ≠ some k)) ++ [(none, relocate it pos)])
            rest := rfl

lemma repairOverflowGo_cons {T : Type} (grid : GridDimensions)
    (kept : List (LayoutItem T)) (it : LayoutItem T) (todo copies : List (LayoutItem T)) :
    repairOverflowGo grid kept (it :: todo) copies =
      if overflows grid it = false then repairOverflowGo grid (kept ++ [it]) todo copies
      else
        match findPositionForItemInGrid grid (kept ++ todo ++ copies) (itemSizeOf it) with
        | Except.error e => Except.error e
        | Except.ok none => repairOverflowGo grid kept todo copies
        | Except.ok (some pos) =>
          repairOverflowGo grid kept todo (copies ++ [relocate it pos]) := rfl

lemma fixGo_no_overflow {T : Type} (grid : GridDimensions) :
    ∀ (todo : List (ℕ × LayoutItem T)) (work : List (Option ℕ × LayoutItem T)),
      (∀ p ∈ todo, overflows grid p.2 = false) → fixGo grid work todo = .ok work := by
  intro todo
  induction todo with
  | nil => intro work _; rfl
  | cons p todo ih =>
    intro work h
    obtain ⟨k, it⟩ := p
    rw [fixGo_cons, if_pos (h (k, it) (List.mem_cons_self _ _))]
    exact ih work (fun q hq => h q (List.mem_cons_of_mem _ hq))

/-- Claim C8: a layout in which no item overflows the grid is returned
unchanged (value-equal, same order) by `fixHorizontalOverflows`. -/
theorem repair_identity {T : Type} (grid : GridDimensions) (layout : Layout T)
    (h : ∀ it ∈ layout, overflows grid it = false) :
    fixHorizontalOverflows grid layout = .ok layout := by
  unfold fixHorizontalOverflows
  rw [fixGo_no_overflow grid layout.enum (tagItems layout) ?_]
  · show Except.ok ((tagItems layout).map Prod.snd) = Except.ok layout
    rw [tagItems_map_snd]
  · intro p hp
    refine h p.2 ?_
    have := List.mem_map_of_mem Prod.snd hp
    rwa [List.enum_map_snd] at this

/-- Witness for C8 at a concrete input: a single non-overflowing item. -/
theorem repair_identity_witness :
    fixHorizontalOverflows (GridDimensions.mk 10 1 1 1 1)
        [LayoutItem.mk (T := Unit) 0 0 1 1 ()] =
      .ok [LayoutItem.mk (T := Unit) 0 0 1 1 ()] :=
  repair_identity (GridDimensions.mk 10 1 1 1 1)
    [LayoutItem.mk (T := Unit) 0 0 1 1 ()] (by decide)

lemma snd_comp_tagSome {T : Type} :
    (Prod.snd ∘ fun p : ℕ × LayoutItem T => ((some p.1 : Option ℕ), p.2)) =
      Prod.snd := rfl

lemma snd_comp_tagNone {T : Type} :
    (Prod.snd ∘ fun c : LayoutItem T => ((none : Option ℕ), c)) = id := rfl

lemma fixGo_eq_repairGo {T : Type} (grid : GridDimensions) :
    ∀ (todo kept : List (ℕ × LayoutItem T)) (copies : List (LayoutItem T)),
      ((kept ++ todo).map Prod.fst).Nodup →
      (fixGo grid
          (kept.map (fun p => ((some p.1 : Option ℕ), p.2)) ++
            todo.map (fun p => ((some p.1 : Option ℕ), p.2)) ++
            copies.map (fun c => ((none : Option ℕ), c)))
          todo).map (List.map Prod.snd) =
        repairOverflowGo grid (kept.map Prod.snd) (todo.map Prod.snd) copies := by
  intro todo
  induction todo with
  | nil =>
    intro kept copies _
    simp only [List.map_nil, List.append_nil]
    show Except.ok ((kept.map (fun p => ((some p.1 : Option ℕ), p.2)) ++
        copies.map (fun c => ((none : Option ℕ), c))).map Prod.snd) =
      Except.ok (kept.map Prod.snd ++ copies)
    rw [List.map_append, List.map_map, List.map_map, snd_comp_tagSome,
      snd_comp_tagNone, List.map_id]
  | cons p todo ih =>
    intro kept copies hnd
    obtain ⟨k, it⟩ := p
    rw [List.map_cons, fixGo_cons, List.map_cons, repairOverflowGo_cons]
    by_cases hov : overflows grid it = false
    · rw [if_pos hov, if_pos hov]
      have hshape : kept.map (fun p => ((some p.1 : Option ℕ), p.2)) ++
          ((some k : Option ℕ), it) ::
            todo.map (fun p => ((some p.1 : Option ℕ), p.2)) ++
          copies.map (fun c => ((none : Option ℕ), c)) =
          (kept ++ [(k, it)]).map (fun p => ((some p.1 : Option ℕ), p.2)) ++
            todo.map (fun p => ((some p.1 : Option ℕ), p.2)) ++
            copies.map (fun c => ((none : Option ℕ), c)) := by
        simp [List.map_append]
      rw [hshape]
      have hnd' : (((kept ++ [(k, it)]) ++ todo).map Prod.fst).Nodup := by
        rw [List.append_assoc, List.singleton_append]
        exact hnd
      rw [ih (kept ++ [(k, it)]) copies hnd', List.map_append]
      rfl
    · rw [if_neg hov, if_neg hov]
      rw [List.map_append, List.map_cons] at hnd
      have hnd2 := hnd
      rw [List.nodup_append] at hnd2
      obtain ⟨hndk, hndc, hdisj⟩ := hnd2
      have hk1 : ∀ q ∈ kept, q.1 ≠ k := by
        intro q hq hqk
        exact hdisj (List.mem_map_of_mem Prod.fst hq)
          (hqk ▸ List.mem_cons_self _ _)
      have hk2 : k ∉ todo.map Prod.fst := (List.nodup_cons.mp hndc).1
      have hfil : (kept.map (fun p => ((some p.1 : Option ℕ), p.2)) ++
          ((some k : Option ℕ), it) ::
            todo.map (fun p => ((some p.1 : Option ℕ), p.2)) ++
          copies.map (fun c => ((none : Option ℕ), c))).filter
            (fun p => decide (p.1 ≠ some k)) =
          kept.map (fun p => ((some p.1 : Option ℕ), p.2)) ++
            todo.map (fun p => ((some p.1 : Option ℕ), p.2)) ++
            copies.map (fun c => ((none : Option ℕ), c)) := by
        rw [List.filter_append, List.filter_append, List.filter_cons]
        rw [if_neg (by simp)]
        congr 1
        · congr 1
          · rw [List.filter_eq_self]
            intro a ha
            rw [List.mem_map] at ha
            obtain ⟨q, hq, hqa⟩ := ha
            rw [← hqa]
            simp only [decide_eq_true_eq]
            intro hc
            rw [Option.some.injEq] at hc
            exact hk1 q hq hc
          · rw [List.filter_eq_self]
            intro a ha
            rw [List.mem_map] at ha
            obtain ⟨q, hq, hqa⟩ := ha
            rw [← hqa]
            simp only [decide_eq_true_eq]
            intro hc
            rw [Option.some.injEq] at hc
            exact hk2 (hc ▸ List.mem_map_of_mem Prod.fst hq)
        · rw [List.filter_eq_self]
          intro a ha
          rw [List.mem_map] at ha
          obtain ⟨c, _, hca⟩ := ha
          rw [← hca]
          simp
      rw [hfil]
      have hscrut : ((kept.map (fun p => ((some p.1 : Option ℕ), p.2)) ++
          todo.map (fun p => ((some p.1 : Option ℕ), p.2)) ++
          copies.map (fun c => ((none : Option ℕ), c))).map Prod.snd) =
          kept.map Prod.snd ++ todo.map Prod.snd ++ copies := by
        rw [List.map_append, List.map_append, List.map_map, List.map_map,
          List.map_map, snd_comp_tagSome, snd_comp_tagNone, List.map_id]
      rw [hscrut]
      have hndrest : ((kept ++ todo).map Prod.fst).Nodup := by
        rw [List.map_append]
        rw [List.nodup_append]
        exact ⟨hndk, (List.nodup_cons.mp hndc).2,
          fun a ha hb => hdisj ha (List.mem_cons_of_mem _ hb)⟩
      cases hfind : findPositionForItemInGrid grid
          (kept.map Prod.snd ++ todo.map Prod.snd ++ copies) (itemSizeOf it) with
      | error e => rfl
      | ok ov =>
        cases ov with
        | none => exact ih kept copies hndrest
        | some pos =>
          show (fixGo grid
              (kept.map (fun p => ((some p.1 : Option ℕ), p.2)) ++
                todo.map (fun p => ((some p.1 : Option ℕ), p.2)) ++
                copies.map (fun c => ((none : Option ℕ), c)) ++
                [((none : Option ℕ), relocate it pos)])
              todo).map (List.map Prod.snd) =
            repairOverflowGo grid (kept.map Prod.snd) (todo.map Prod.snd)
              (copies ++ [relocate it pos])
          have hshape2 : kept.map (fun p => ((some p.1 : Option ℕ), p.2)) ++
              todo.map (fun p => ((some p.1 : Option ℕ), p.2)) ++
              copies.map (fun c => ((none : Option ℕ), c)) ++
              [((none : Option ℕ), relocate it pos)] =
              kept.map (fun p => ((some p.1 : Option ℕ), p.2)) ++
                todo.map (fun p => ((some p.1 : Option ℕ), p.2)) ++
                (copies ++ [relocate it pos]).map
                  (fun c => ((none : Option ℕ), c)) := by
            simp [List.map_append, List.append_assoc]
          rw [hshape2]
          exact ih kept (copies ++ [relocate it pos]) hndrest

/-- Claim C3: `fixHorizontalOverflows` coincides, on every grid and layout,
with the spec's Overflow Repair procedure `repairOverflow` (section 4.6):
items are processed in original layout order; each overflowing item is
removed from the working copy, Placement Search runs against the current
working copy (so earlier relocations affect later ones), a found slot
appends a copy with the new coordinates but identical size and payload at
the end of the working sequence, and a failed search drops the item;
non-overflowing items keep their original positions. In this pure embedding
the input layout is, by construction, never mutated. -/
theorem fixHorizontalOverflows_eq_repairOverflow {T : Type} (grid : GridDimensions)
    (layout : Layout T) :
    fixHorizontalOverflows grid layout = repairOverflow grid layout := by
  unfold fixHorizontalOverflows repairOverflow tagItems
  have h := fixGo_eq_repairGo grid layout.enum [] []
    (by rw [List.nil_append, List.enum_map_fst]; exact List.nodup_range _)
  simp only [List.map_nil, List.nil_append, List.append_nil] at h
  rw [List.enum_map_snd] at h
  exact h

/-! ### Snap ranking -/

/-- The index of a candidate in the row-major enumeration of grid-cell
origins: `row * columns + column`. -/
def snapKey (grid : GridDimensions) (c : SnapPoint) : ℤ :=
  c.position.y * grid.columns + c.position.x

lemma orderedInsert_stable (grid : GridDimensions) (pos : PixelPosition) (a : SnapPoint) :
    ∀ l : List SnapPoint,
      (∀ x ∈ l, distanceSq a.pixelPosition pos = distanceSq x.pixelPosition pos →
        snapKey grid a < snapKey grid x) →
      l.Pairwise (fun u v =>
        distanceSq u.pixelPosition pos ≤ distanceSq v.pixelPosition pos ∧
        (distanceSq u.pixelPosition pos = distanceSq v.pixelPosition pos →
          snapKey grid u < snapKey grid v)) →
      (List.orderedInsert
          (fun u v => distanceSq u.pixelPosition pos ≤ distanceSq v.pixelPosition pos)
          a l).Pairwise (fun u v =>
        distanceSq u.pixelPosition pos ≤ distanceSq v.pixelPosition pos ∧
        (distanceSq u.pixelPosition pos = distanceSq v.pixelPosition pos →
          snapKey grid u < snapKey grid v)) := by
  intro l
  induction l with
  | nil =>
    intro _ _
    simp [List.orderedInsert]
  | cons b l ih =>
    intro hP hQ
    simp only [List.orderedInsert]
    by_cases hr : distanceSq a.pixelPosition pos ≤ distanceSq b.pixelPosition pos
    · rw [if_pos hr]
      refine List.pairwise_cons.mpr ⟨?_, hQ⟩
      intro y hy
      rcases List.mem_cons.mp hy with rfl | hy'
      · exact ⟨hr, hP y (List.mem_cons_self _ _)⟩
      · have hby := (List.pairwise_cons.mp hQ).1 y hy'
        exact ⟨le_trans hr hby.1, hP y (List.mem_cons_of_mem _ hy')⟩
    · rw [if_neg hr]
      obtain ⟨hbl, hQ'⟩ := List.pairwise_cons.mp hQ
      refine List.pairwise_cons.mpr
        ⟨?_, ih (fun x hx => hP x (List.mem_cons_of_mem _ hx)) hQ'⟩
      intro y hy
      rcases (List.mem_orderedInsert _).mp hy with rfl | hy'
      · exact ⟨(not_le.mp hr).le, fun he => absurd he.symm.le hr⟩
      · exact hbl y hy'

lemma insertionSort_stable (grid : GridDimensions) (pos : PixelPosition) :
    ∀ l : List SnapPoint,
      l.Pairwise (fun u v =>
        distanceSq u.pixelPosition pos = distanceSq v.pixelPosition pos →
          snapKey grid u < snapKey grid v) →
      (List.insertionSort
          (fun u v => distanceSq u.pixelPosition pos ≤ distanceSq v.pixelPosition pos)
          l).Pairwise (fun u v =>
        distanceSq u.pixelPosition pos ≤ distanceSq v.pixelPosition pos ∧
        (distanceSq u.pixelPosition pos = distanceSq v.pixelPosition pos →
          snapKey grid u < snapKey grid v)) := by
  intro l
  induction l with
  | nil =>
    intro _
    simp [List.insertionSort]
  | cons a l ih =>
    intro hP
    obtain ⟨ha, hP'⟩ := List.pairwise_cons.mp hP
    rw [List.insertionSort]
    refine orderedInsert_stable grid pos a _ ?_ (ih hP')
    intro x hx
    exact ha x ((List.perm_insertionSort _ l).mem_iff.mp hx)

lemma snapPointsOf_pairwise_key (grid : GridDimensions) :
    (snapPointsOf grid).Pairwise (fun a b => snapKey grid a < snapKey grid b) := by
  unfold snapPointsOf
  rw [List.pairwise_flatMap]
  constructor
  · intro row _
    rw [List.pairwise_map]
    refine List.Pairwise.imp ?_ (List.pairwise_lt_range _)
    intro c1 c2 hc
    show (row : ℤ) * grid.columns + (c1 : ℤ) < (row : ℤ) * grid.columns + (c2 : ℤ)
    exact add_lt_add_left (by exact_mod_cast hc) _
  · refine List.Pairwise.imp ?_ (List.pairwise_lt_range _)
    intro r1 r2 hr x hx y hy
    rw [List.mem_map] at hx hy
    obtain ⟨c1, hc1, hx'⟩ := hx
    obtain ⟨c2, hc2, hy'⟩ := hy
    rw [List.mem_range] at hc1 hc2
    rw [← hx', ← hy']
    show (r1 : ℤ) * grid.columns + (c1 : ℤ) < (r2 : ℤ) * grid.columns + (c2 : ℤ)
    have h1 : (c1 : ℤ) < grid.columns := by exact_mod_cast hc1
    have h2 : (0 : ℤ) ≤ (c2 : ℤ) := Int.natCast_nonneg _
    have hr' : (r1 : ℤ) + 1 ≤ (r2 : ℤ) := by exact_mod_cast hr
    have hcols : (0 : ℤ) ≤ (grid.columns : ℤ) := Int.natCast_nonneg _
    calc (r1 : ℤ) * grid.columns + (c1 : ℤ)
        < (r1 : ℤ) * grid.columns + (grid.columns : ℤ) := add_lt_add_left h1 _
      _ = ((r1 : ℤ) + 1) * grid.columns := by ring
      _ ≤ (r2 : ℤ) * grid.columns := mul_le_mul_of_nonneg_right hr' hcols
      _ ≤ (r2 : ℤ) * grid.columns + (c2 : ℤ) := le_add_of_nonneg_right h2

lemma mem_snapPointsOf (grid : GridDimensions) (c : SnapPoint) :
    c ∈ snapPointsOf grid ↔
      ∃ row : ℕ, row < grid.rows ∧ ∃ col : ℕ, col < grid.columns ∧
        c = SnapPoint.mk
          (PixelPosition.mk ((col : ℚ) * grid.boxSize) ((row : ℚ) * grid.boxSize))
          (Position.mk (col : ℤ) (row : ℤ)) := by
  unfold snapPointsOf
  simp only [List.mem_flatMap, List.mem_map, List.mem_range]
  constructor
  · rintro ⟨row, hrow, col, hcol, hc⟩
    exact ⟨row, hrow, col, hcol, hc.symm⟩
  · rintro ⟨row, hrow, col, hcol, hc⟩
    exact ⟨row, hrow, col, hcol, hc.symm⟩

lemma length_snapPointsOf (grid : GridDimensions) :
    (snapPointsOf grid).length = grid.rows * grid.columns := by
  unfold snapPointsOf
  rw [List.length_flatMap]
  have hmap : List.map (List.length ∘ fun (row : ℕ) =>
      (List.range grid.columns).map (fun (column : ℕ) =>
        SnapPoint.mk
          (PixelPosition.mk ((column : ℚ) * grid.boxSize) ((row : ℚ) * grid.boxSize))
          (Position.mk (column : ℤ) (row : ℤ)))) (List.range grid.rows) =
      List.replicate grid.rows grid.columns := by
    rw [List.map_congr_left (g := Function.const ℕ grid.columns)
      (fun r _ => by simp [Function.comp])]
    rw [List.map_const, List.length_range]
  rw [hmap, List.sum_replicate, smul_eq_mul]

/-- Claim C7: `snapToSector` returns exactly `rows * columns` candidates --
a permutation of the row-major enumeration, one per grid-cell origin with
`pixelPosition = (column * boxSize, row * boxSize)` -- sorted ascending by
distance to the query point (stated with squared Euclidean distances, which
order identically), and with ties kept in the original row-major enumeration
order (the stable-sort guarantee): any candidate `a` before `b` in the
output has `distance(a) ≤ distance(b)`, and equal distances imply `a`
precedes `b` in row-major order. -/
theorem snapToSector_ranking (grid : GridDimensions) (pos : PixelPosition) :
    (snapToSector grid pos).length = grid.rows * grid.columns ∧
    (snapToSector grid pos).Perm (snapPointsOf grid) ∧
    (∀ c : SnapPoint, c ∈ snapToSector grid pos ↔
      ∃ row : ℕ, row < grid.rows ∧ ∃ col : ℕ, col < grid.columns ∧
        c = SnapPoint.mk
          (PixelPosition.mk ((col : ℚ) * grid.boxSize) ((row : ℚ) * grid.boxSize))
          (Position.mk (col : ℤ) (row : ℤ))) ∧
    (snapToSector grid pos).Pairwise (fun a b =>
      distanceSq a.pixelPosition pos ≤ distanceSq b.pixelPosition pos ∧
      (distanceSq a.pixelPosition pos = distanceSq b.pixelPosition pos →
        snapKey grid a < snapKey grid b)) := by
  have hperm : (snapToSector grid pos).Perm (snapPointsOf grid) :=
    List.perm_insertionSort _ _
  refine ⟨by rw [hperm.length_eq, length_snapPointsOf], hperm, ?_, ?_⟩
  · intro c
    rw [hperm.mem_iff]
    exact mem_snapPointsOf grid c
  · refine insertionSort_stable grid pos (snapPointsOf grid)
      ((snapPointsOf_pairwise_key grid).imp ?_)
    intro u v h _
    exact h
